import Mathlib

/-!
# Verification of the WhirlZoomMap gesture / camera-transform core

A shallow embedding of the gesture-interpretation pipeline of the
WhirlZoomMap repository, together with theorems settling the frozen claims
about it.  Numeric values of the JavaScript runtime are idealised as exact
rationals or reals; `Math.sqrt` is `Real.sqrt`, `Math.atan2 y x` is
`Complex.arg ⟨x, y⟩`, and `Math.PI` is `Real.pi`.

The sections mirror the source files:
* Geometry Calculator — `src/visualization/TrailVisualizer.ts`
  (`getSignedArea`, `getCenterOfMass`, `getSweptAngle`, `getFullCircles`,
  `getCompoundZoomValue`) with the tunables of `src/control.ts`;
* Camera — `src/map/providers/AppleMapProvider.ts` (`panBy`,
  `zoomAtPoint`) plus the screen↔geographic conversion the provider
  obtains from the external MapKit collaborator, modelled from the spec;
* Gesture Handler — `src/interaction/handlers/PassThroughHandler.ts`
  (single-pointer zoom hysteresis, gear-mode rotation, the two-pointer
  branch, pointer lifecycle and the inertia engine).
-/

namespace WhirlZoom

open Real

/-! ## Geometry Calculator (`TrailVisualizer.ts`)

Trail points are screen points in client coordinates: x grows rightwards,
y grows *downwards* (standard browser convention).  The current point is
`dragPoint || virtualTouchPoint`, hence an `Option`. -/

structure Pt where
  x : ℝ
  y : ℝ

/-- Body of the loop in `TrailVisualizer.getSignedArea`:
`0.5 * ((p2.x - p1.x) * (p3.y - p1.y) - (p3.x - p1.x) * (p2.y - p1.y))`. -/
noncomputable def triArea (p1 p2 p3 : Pt) : ℝ :=
  (1 / 2) * ((p2.x - p1.x) * (p3.y - p1.y) - (p3.x - p1.x) * (p2.y - p1.y))

/-- The loop of `TrailVisualizer.getSignedArea`: summing `triArea` over
consecutive trail pairs against the current point. -/
noncomputable def signedAreaSum : List Pt → Pt → ℝ
  | p1 :: p2 :: rest, c => triArea p1 p2 c + signedAreaSum (p2 :: rest) c
  | _, _ => 0

/-- `TrailVisualizer.getSignedArea`: zero unless a current point exists and
the trail has at least two points. -/
noncomputable def getSignedArea (trail : List Pt) (current : Option Pt) : ℝ :=
  match current with
  | some c => if 2 ≤ trail.length then signedAreaSum trail c else 0
  | none => 0

/-- `TrailVisualizer.getCenterOfMass`: mean of the trail points, `none` for
an empty trail. -/
noncomputable def getCenterOfMass (trail : List Pt) : Option Pt :=
  if trail.isEmpty then none
  else some ⟨(trail.map Pt.x).sum / trail.length, (trail.map Pt.y).sum / trail.length⟩

/-- JavaScript `Math.atan2(y, x)`: the argument of the complex number
`x + y·i`, in `(-π, π]`. -/
noncomputable def atan2 (y x : ℝ) : ℝ := Complex.arg ⟨x, y⟩

/-- The two wrap-around `while` loops of `TrailVisualizer.getSweptAngle`
(`while (angleDiff > PI) angleDiff -= 2*PI; while (angleDiff < -PI) ...`),
written in closed form: the first loop subtracts `2π` exactly
`⌈(d - π) / 2π⌉` times, the second adds it `⌈(-π - d) / 2π⌉` times, and at
most one of the two loops runs. -/
noncomputable def wrapAngle (d : ℝ) : ℝ :=
  if π < d then d - 2 * π * ⌈(d - π) / (2 * π)⌉
  else if d < -π then d + 2 * π * ⌈(-π - d) / (2 * π)⌉
  else d

/-- The loop of `TrailVisualizer.getSweptAngle`: wrapped differences of
bearings (from the centre of mass) of consecutive trail points. -/
noncomputable def sweptSum : List Pt → Pt → ℝ
  | p1 :: p2 :: rest, c =>
      wrapAngle (atan2 (p2.y - c.y) (p2.x - c.x) - atan2 (p1.y - c.y) (p1.x - c.x))
        + sweptSum (p2 :: rest) c
  | _, _ => 0

/-- `TrailVisualizer.getSweptAngle`. -/
noncomputable def getSweptAngle (trail : List Pt) : ℝ :=
  if trail.length < 2 then 0
  else
    match getCenterOfMass trail with
    | none => 0
    | some c => sweptSum trail c

/-- `TrailVisualizer.getFullCircles`:
`sign(swept) * max(0, |swept| - π) / π` with `sign = 1` when `swept ≥ 0`. -/
noncomputable def getFullCircles (trail : List Pt) : ℝ :=
  let sweptAngle := getSweptAngle trail
  (if 0 ≤ sweptAngle then 1 else -1) * max 0 (|sweptAngle| - π) / π

/-- `ZOOM_FULL_CIRCLES_MULT` of `control.ts`. -/
noncomputable def ZOOM_FULL_CIRCLES_MULT : ℝ := 2

/-- `TrailVisualizer.getCompoundZoomValue`. -/
noncomputable def getCompoundZoomValue (trail : List Pt) (current : Option Pt) : ℝ :=
  let signedArea := getSignedArea trail current
  let fullCircles := getFullCircles trail
  let signOfArea : ℝ := if 0 ≤ signedArea then 1 else -1
  signedArea * fullCircles * (ZOOM_FULL_CIRCLES_MULT * ZOOM_FULL_CIRCLES_MULT) * signOfArea

/-! ### C3 — sign convention of `getSignedArea`

An axis-aligned square around centre `c` with half-side `r`, traversed
clockwise *as seen on the screen* (y grows downwards): top-left → top-right
→ bottom-right → bottom-left → top-left. -/

/-- Square trail around `c`, clockwise in screen orientation. -/
noncomputable def cwSquare (c : Pt) (r : ℝ) : List Pt :=
  [⟨c.x - r, c.y - r⟩, ⟨c.x + r, c.y - r⟩, ⟨c.x + r, c.y + r⟩,
   ⟨c.x - r, c.y + r⟩, ⟨c.x - r, c.y - r⟩]

/-- The same square traversed counter-clockwise on the screen. -/
noncomputable def ccwSquare (c : Pt) (r : ℝ) : List Pt := (cwSquare c r).reverse

/-- **C3, counterexample.** The claim says a clockwise square trail around
the current point yields a *negative* signed area.  For the concrete
clockwise (screen orientation, y downwards) unit square around the origin,
`getSignedArea` is `4`, which is not negative. -/
theorem C3_cex_clockwise_square_positive :
    getSignedArea (cwSquare ⟨0, 0⟩ 1) (some ⟨0, 0⟩) = 4 ∧
      ¬ getSignedArea (cwSquare ⟨0, 0⟩ 1) (some ⟨0, 0⟩) < 0 := by
  constructor
  · simp [cwSquare, getSignedArea, signedAreaSum, triArea]
    norm_num
  · simp [cwSquare, getSignedArea, signedAreaSum, triArea]
    norm_num

/-- **C3, amended.** In the screen coordinate system the trail points live
in (y downwards), a clockwise square around the current point yields
`getSignedArea = 4·r² > 0` and the counter-clockwise traversal yields
`-4·r² < 0`: positive signed area corresponds to *clockwise* screen
winding (equivalently, counter-clockwise winding in the mathematical y-up
orientation, which is the convention the spec's sentence matches). -/
theorem C3_signedArea_square_winding (c : Pt) (r : ℝ) (hr : 0 < r) :
    getSignedArea (cwSquare c r) (some c) = 4 * r ^ 2 ∧
      0 < getSignedArea (cwSquare c r) (some c) ∧
      getSignedArea (ccwSquare c r) (some c) = -(4 * r ^ 2) ∧
      getSignedArea (ccwSquare c r) (some c) < 0 := by
  have hcw : getSignedArea (cwSquare c r) (some c) = 4 * r ^ 2 := by
    simp [cwSquare, getSignedArea, signedAreaSum, triArea]
    ring
  have hccw : getSignedArea (ccwSquare c r) (some c) = -(4 * r ^ 2) := by
    simp [ccwSquare, cwSquare, getSignedArea, signedAreaSum, triArea]
    ring
  refine ⟨hcw, ?_, hccw, ?_⟩
  · rw [hcw]; positivity
  · rw [hccw]
    have : (0:ℝ) < 4 * r ^ 2 := by positivity
    linarith

/-- **C3, witness** for the amended theorem at the unit square around the
origin. -/
theorem C3_signedArea_square_winding_witness :
    (0:ℝ) < 1 ∧
      (getSignedArea (cwSquare ⟨0, 0⟩ 1) (some ⟨0, 0⟩) = 4 * 1 ^ 2 ∧
        0 < getSignedArea (cwSquare ⟨0, 0⟩ 1) (some ⟨0, 0⟩) ∧
        getSignedArea (ccwSquare ⟨0, 0⟩ 1) (some ⟨0, 0⟩) = -(4 * 1 ^ 2) ∧
        getSignedArea (ccwSquare ⟨0, 0⟩ 1) (some ⟨0, 0⟩) < 0) :=
  ⟨by norm_num, C3_signedArea_square_winding ⟨0, 0⟩ 1 (by norm_num)⟩


/-! ### C4 — `getFullCircles` on a one-revolution trail

Bearing computations for points given in polar form around the centre of
mass. -/

/-- `Math.atan2` of a point in polar form with positive radius and angle
already in `(-π, π]`. -/
lemma atan2_polar (r θ : ℝ) (hr : 0 < r) (hθ : θ ∈ Set.Ioc (-π) π) :
    atan2 (r * Real.sin θ) (r * Real.cos θ) = θ := by
  have hz : (⟨r * Real.cos θ, r * Real.sin θ⟩ : ℂ)
      = (r : ℂ) * ((Real.cos θ : ℂ) + (Real.sin θ : ℂ) * Complex.I) := by
    apply Complex.ext <;>
      simp only [Complex.mul_re, Complex.mul_im, Complex.add_re, Complex.add_im,
        Complex.ofReal_re, Complex.ofReal_im, Complex.I_re, Complex.I_im] <;>
      ring
  rw [atan2, hz, Complex.arg_real_mul _ hr, Complex.ofReal_cos, Complex.ofReal_sin,
    Complex.arg_cos_add_sin_mul_I hθ]

lemma sqrt_two_half (r : ℝ) : r * Real.sqrt 2 * (Real.sqrt 2 / 2) = r := by
  have h22 : Real.sqrt 2 * Real.sqrt 2 = 2 := Real.mul_self_sqrt (by norm_num)
  field_simp
  linear_combination r * h22

lemma atan2_east (r : ℝ) (hr : 0 < r) : atan2 0 r = 0 := by
  have h := atan2_polar r 0 hr ⟨by linarith [Real.pi_pos], le_of_lt Real.pi_pos⟩
  rwa [Real.sin_zero, Real.cos_zero, mul_zero, mul_one] at h

lemma atan2_southeast (r : ℝ) (hr : 0 < r) : atan2 r r = π / 4 := by
  have hr2 : 0 < r * Real.sqrt 2 := by positivity
  have hmem : π / 4 ∈ Set.Ioc (-π) π := ⟨by linarith [Real.pi_pos], by linarith [Real.pi_pos]⟩
  have h := atan2_polar (r * Real.sqrt 2) (π / 4) hr2 hmem
  rwa [Real.sin_pi_div_four, Real.cos_pi_div_four, sqrt_two_half] at h

lemma atan2_south (r : ℝ) (hr : 0 < r) : atan2 r 0 = π / 2 := by
  have hmem : π / 2 ∈ Set.Ioc (-π) π := ⟨by linarith [Real.pi_pos], by linarith [Real.pi_pos]⟩
  have h := atan2_polar r (π / 2) hr hmem
  rwa [Real.sin_pi_div_two, Real.cos_pi_div_two, mul_zero, mul_one] at h

lemma cos_three_quarters : Real.cos (3 * π / 4) = -(Real.sqrt 2 / 2) := by
  rw [show 3 * π / 4 = π - π / 4 by ring, Real.cos_pi_sub, Real.cos_pi_div_four]

lemma sin_three_quarters : Real.sin (3 * π / 4) = Real.sqrt 2 / 2 := by
  rw [show 3 * π / 4 = π - π / 4 by ring, Real.sin_pi_sub, Real.sin_pi_div_four]

lemma atan2_southwest (r : ℝ) (hr : 0 < r) : atan2 r (-r) = 3 * π / 4 := by
  have hr2 : 0 < r * Real.sqrt 2 := by positivity
  have hmem : 3 * π / 4 ∈ Set.Ioc (-π) π := ⟨by linarith [Real.pi_pos], by linarith [Real.pi_pos]⟩
  have h := atan2_polar (r * Real.sqrt 2) (3 * π / 4) hr2 hmem
  rw [sin_three_quarters, cos_three_quarters, sqrt_two_half] at h
  rw [show r * Real.sqrt 2 * -(Real.sqrt 2 / 2) = -(r * Real.sqrt 2 * (Real.sqrt 2 / 2)) by ring,
    sqrt_two_half] at h
  exact h

lemma atan2_west (r : ℝ) (hr : 0 < r) : atan2 0 (-r) = π := by
  have hmem : π ∈ Set.Ioc (-π) π := ⟨by linarith [Real.pi_pos], le_refl _⟩
  have h := atan2_polar r π hr hmem
  rwa [Real.sin_pi, Real.cos_pi, mul_zero, mul_neg_one] at h

lemma atan2_northwest (r : ℝ) (hr : 0 < r) : atan2 (-r) (-r) = -(3 * π / 4) := by
  have hr2 : 0 < r * Real.sqrt 2 := by positivity
  have hmem : -(3 * π / 4) ∈ Set.Ioc (-π) π := ⟨by linarith [Real.pi_pos], by linarith [Real.pi_pos]⟩
  have h := atan2_polar (r * Real.sqrt 2) (-(3 * π / 4)) hr2 hmem
  rw [Real.sin_neg, Real.cos_neg, sin_three_quarters, cos_three_quarters] at h
  rw [show r * Real.sqrt 2 * -(Real.sqrt 2 / 2) = -(r * Real.sqrt 2 * (Real.sqrt 2 / 2)) by ring,
    sqrt_two_half] at h
  exact h

lemma atan2_north (r : ℝ) (hr : 0 < r) : atan2 (-r) 0 = -(π / 2) := by
  have hmem : -(π / 2) ∈ Set.Ioc (-π) π := ⟨by linarith [Real.pi_pos], by linarith [Real.pi_pos]⟩
  have h := atan2_polar r (-(π / 2)) hr hmem
  rwa [Real.sin_neg, Real.cos_neg, Real.sin_pi_div_two, Real.cos_pi_div_two, mul_zero,
    mul_neg, mul_one] at h

lemma atan2_northeast (r : ℝ) (hr : 0 < r) : atan2 (-r) r = -(π / 4) := by
  have hr2 : 0 < r * Real.sqrt 2 := by positivity
  have hmem : -(π / 4) ∈ Set.Ioc (-π) π := ⟨by linarith [Real.pi_pos], by linarith [Real.pi_pos]⟩
  have h := atan2_polar (r * Real.sqrt 2) (-(π / 4)) hr2 hmem
  rw [Real.sin_neg, Real.cos_neg, Real.sin_pi_div_four, Real.cos_pi_div_four] at h
  rw [show r * Real.sqrt 2 * -(Real.sqrt 2 / 2) = -(r * Real.sqrt 2 * (Real.sqrt 2 / 2)) by ring,
    sqrt_two_half] at h
  exact h

/-- A wrapped difference already in `[-π, π]` is unchanged. -/
lemma wrapAngle_of_mem (d : ℝ) (h1 : -π ≤ d) (h2 : d ≤ π) : wrapAngle d = d := by
  rw [wrapAngle, if_neg (not_lt.2 h2), if_neg (not_lt.2 h1)]

/-- A wrapped difference in `(-2π, -π)` gains one full turn. -/
lemma wrapAngle_low (d : ℝ) (h1 : -(2 * π) < d) (h2 : d < -π) : wrapAngle d = d + 2 * π := by
  have hpi := Real.pi_pos
  have hceil : ⌈(-π - d) / (2 * π)⌉ = 1 := by
    rw [Int.ceil_eq_iff]
    constructor
    · have hd : (0:ℝ) < (-π - d) / (2 * π) := div_pos (by linarith) (by linarith)
      push_cast
      linarith
    · push_cast
      rw [div_le_one (by linarith)]
      linarith
  rw [wrapAngle, if_neg (not_lt.2 (by linarith : d ≤ π)), if_pos h2, hceil]
  push_cast
  ring

/-- Eight-point trail sampling exactly one revolution around `c` (45°
bearing steps) at scale `r`; its centre of mass is `c` exactly. -/
noncomputable def octagonTrail (c : Pt) (r : ℝ) : List Pt :=
  [⟨c.x + r, c.y⟩, ⟨c.x + r, c.y + r⟩, ⟨c.x, c.y + r⟩, ⟨c.x - r, c.y + r⟩,
   ⟨c.x - r, c.y⟩, ⟨c.x - r, c.y - r⟩, ⟨c.x, c.y - r⟩, ⟨c.x + r, c.y - r⟩]

lemma octagon_com (c : Pt) (r : ℝ) : getCenterOfMass (octagonTrail c r) = some c := by
  obtain ⟨cx, cy⟩ := c
  simp [getCenterOfMass, octagonTrail]
  constructor <;> ring

lemma octagon_swept (c : Pt) (r : ℝ) (hr : 0 < r) :
    getSweptAngle (octagonTrail c r) = 7 * π / 4 := by
  obtain ⟨cx, cy⟩ := c
  have hpi := Real.pi_pos
  unfold getSweptAngle
  rw [octagon_com]
  rw [if_neg (by simp [octagonTrail])]
  simp only [octagonTrail, sweptSum]
  rw [show cy - cy = (0:ℝ) by ring, show cx + r - cx = r by ring,
    show cy + r - cy = r by ring, show cx - r - cx = -r by ring,
    show cy - r - cy = -r by ring, show cx - cx = (0:ℝ) by ring]
  rw [atan2_east r hr, atan2_southeast r hr, atan2_south r hr, atan2_southwest r hr,
    atan2_west r hr, atan2_northwest r hr, atan2_north r hr, atan2_northeast r hr]
  rw [wrapAngle_of_mem (π / 4 - 0) (by linarith) (by linarith),
    wrapAngle_of_mem (π / 2 - π / 4) (by linarith) (by linarith),
    wrapAngle_of_mem (3 * π / 4 - π / 2) (by linarith) (by linarith),
    wrapAngle_of_mem (π - 3 * π / 4) (by linarith) (by linarith),
    wrapAngle_low (-(3 * π / 4) - π) (by linarith) (by linarith),
    wrapAngle_of_mem (-(π / 2) - -(3 * π / 4)) (by linarith) (by linarith),
    wrapAngle_of_mem (-(π / 4) - -(π / 2)) (by linarith) (by linarith)]
  ring

lemma octagon_fullCircles (c : Pt) (r : ℝ) (hr : 0 < r) :
    getFullCircles (octagonTrail c r) = 3 / 4 := by
  have hpi := Real.pi_pos
  simp only [getFullCircles, octagon_swept c r hr]
  rw [if_pos (by linarith : (0:ℝ) ≤ 7 * π / 4)]
  rw [abs_of_nonneg (by linarith : (0:ℝ) ≤ 7 * π / 4)]
  rw [max_eq_right (by linarith : (0:ℝ) ≤ 7 * π / 4 - π)]
  field_simp
  ring

/-- **C4, counterexample.** The claim says a trail sampling exactly one
revolution around a fixed centre yields `FullCircles ≈ 0`.  For the
concrete 8-point one-revolution trail around the origin the code returns
`3/4`, which is not within `1/2` of `0` (and finer sampling approaches
`1`, not `0`: the code subtracts only a half turn `π` before dividing by
`π`). -/
theorem C4_cex_one_revolution_not_zero :
    getFullCircles (octagonTrail ⟨0, 0⟩ 1) = 3 / 4 ∧
      ¬ |getFullCircles (octagonTrail ⟨0, 0⟩ 1)| ≤ 1 / 2 := by
  have h := octagon_fullCircles ⟨0, 0⟩ 1 (by norm_num)
  refine ⟨h, ?_⟩
  rw [h, abs_of_nonneg (by norm_num : (0:ℝ) ≤ 3 / 4)]
  norm_num

/-- **C4, amended.** A trail of `n` points evenly sampling exactly one
revolution around a fixed centre has swept angle `(n-1)/n · 2π` and
`getFullCircles = (n-2)/n` — approaching `1` for fine sampling, not `0`
(and `1.5` revolutions yields `≈ 2`, not `0.5`): here proved for the
8-point sampling at any centre and scale, where the value is `3/4`. -/
theorem C4_fullCircles_one_revolution (c : Pt) (r : ℝ) (hr : 0 < r) :
    getSweptAngle (octagonTrail c r) = 7 * π / 4 ∧
      getFullCircles (octagonTrail c r) = 3 / 4 :=
  ⟨octagon_swept c r hr, octagon_fullCircles c r hr⟩

/-- **C4, witness** at centre `(5, -3)` and scale `2`. -/
theorem C4_fullCircles_one_revolution_witness :
    (0:ℝ) < 2 ∧
      (getSweptAngle (octagonTrail ⟨5, -3⟩ 2) = 7 * π / 4 ∧
        getFullCircles (octagonTrail ⟨5, -3⟩ 2) = 3 / 4) :=
  ⟨by norm_num, C4_fullCircles_one_revolution ⟨5, -3⟩ 2 (by norm_num)⟩

/-! ## Camera (`AppleMapProvider.ts`)

The camera is modelled over exact rationals.  Zoom levels enter the source
only through `span = 360 / 2^zoom`, so the model keeps the span and
parametrises a zoom change `zoomDelta` by its factor `f = 2^zoomDelta > 0`;
the level clamp `max(1, min(20, zoom + zoomDelta))` becomes the span clamp
`360/2^20 ≤ span ≤ 180`.  The rotation angle enters `panBy` only through
its cosine and sine, carried as a pair `(rotC, rotS)` with
`rotC² + rotS² = 1`. -/

structure MapCam where
  ready : Bool
  centerLat : ℚ
  centerLng : ℚ
  latSpan : ℚ
  lngSpan : ℚ
  rotC : ℚ
  rotS : ℚ
  width : ℚ
  height : ℚ
  rectLeft : ℚ
  rectTop : ℚ

/-- The longitude-normalisation `while` loops of `AppleMapProvider.panBy`
(`while (newLng > 180) newLng -= 360; while (newLng < -180) newLng += 360`)
in closed form: the first loop subtracts `360` exactly `⌈(q-180)/360⌉`
times, the second adds it `⌈(-180-q)/360⌉` times, and at most one of the
two loops runs. -/
def normLng (q : ℚ) : ℚ :=
  if 180 < q then q - 360 * ⌈(q - 180) / 360⌉
  else if q < -180 then q + 360 * ⌈(-180 - q) / 360⌉
  else q

/-- `Math.max(-85, Math.min(85, newLat))` of `AppleMapProvider.panBy`. -/
def clampLat (q : ℚ) : ℚ := max (-85) (min 85 q)

/-- The unclamped new centre latitude `panBy` computes:
`center.latitude - rotatedDy * latPerPixel`. -/
def panByRawLat (cam : MapCam) (dx dy : ℚ) : ℚ :=
  cam.centerLat - (-dx * cam.rotS + dy * cam.rotC) * (cam.latSpan / cam.height)

/-- The unnormalised new centre longitude `panBy` computes:
`center.longitude + rotatedDx * lngPerPixel`. -/
def panByRawLng (cam : MapCam) (dx dy : ℚ) : ℚ :=
  cam.centerLng + (dx * cam.rotC + dy * cam.rotS) * (cam.lngSpan / cam.width)

/-- `AppleMapProvider.panBy`: rotate the pixel offset by the map rotation,
convert to degrees per pixel, normalise the longitude, clamp the latitude
(Web Mercator limits), set the centre.  A no-op when the map or container
is missing. -/
def panBy (cam : MapCam) (dx dy : ℚ) : MapCam :=
  if cam.ready = false then cam
  else
    { cam with
      centerLat := clampLat (panByRawLat cam dx dy)
      centerLng := normLng (panByRawLng cam dx dy) }

/-- Modelled from the spec: MapKit's `convertCoordinateToPointOnPage`, the
screen-pixel side of the "bidirectional screen-pixel ↔ geographic-
coordinate conversion" capability of §6 that the gesture core receives
from the external collaborator (it is not part of this repository).  It is
the inverse of the pixel→degree relation `panBy` realises: a coordinate's
page point is the container centre plus the rotation applied to the
per-pixel-scaled offset from the map centre. -/
def coordToPage (cam : MapCam) (lat lng : ℚ) : ℚ × ℚ :=
  let cx := cam.rectLeft + cam.width / 2
  let cy := cam.rectTop + cam.height / 2
  let wx := (lng - cam.centerLng) * cam.width / cam.lngSpan
  let wy := -((lat - cam.centerLat) * cam.height / cam.latSpan)
  (cx + (cam.rotC * wx - cam.rotS * wy), cy + (cam.rotS * wx + cam.rotC * wy))

/-- Modelled from the spec: MapKit's `convertPointOnPageToCoordinate`,
the geographic side of the conversion capability of §6 — the inverse of
`coordToPage`. -/
def pageToCoord (cam : MapCam) (px py : ℚ) : ℚ × ℚ :=
  let ox := px - (cam.rectLeft + cam.width / 2)
  let oy := py - (cam.rectTop + cam.height / 2)
  let wx := ox * cam.rotC + oy * cam.rotS
  let wy := -ox * cam.rotS + oy * cam.rotC
  (cam.centerLat - wy * cam.latSpan / cam.height,
   cam.centerLng + wx * cam.lngSpan / cam.width)

/-- `PassThroughHandler.positionCoordinateAtScreenPoint`: find where the
coordinate currently appears on the page and pan by the difference to the
target screen point. -/
def positionCoordinateAtScreenPoint (cam : MapCam) (lat lng clientX clientY : ℚ) : MapCam :=
  if cam.ready = false then cam
  else
    let currentPage := coordToPage cam lat lng
    panBy cam (currentPage.1 - clientX) (currentPage.2 - clientY)

/-- Span at the maximum zoom level 20. -/
def ZOOM_MIN_SPAN : ℚ := 360 / 2 ^ 20

/-- Span at the minimum zoom level 1. -/
def ZOOM_MAX_SPAN : ℚ := 180

/-- The zoom-level clamp `Math.max(1, Math.min(20, zoom + zoomDelta))` of
`zoomAtPoint`, expressed on spans (`span = 360 / 2^zoom` reverses the
order). -/
def clampSpan (v : ℚ) : ℚ := max ZOOM_MIN_SPAN (min ZOOM_MAX_SPAN v)

/-- `AppleMapProvider.zoomAtPoint` with the zoom change parametrised by its
factor `f = 2^zoomDelta` (so `span / f` is the requested new span):
remember the coordinate under the cursor, pan to the equator, apply the
clamped zoom there, pan back, and — when the zoom actually changed —
compensate with a pan bringing the remembered coordinate back under the
cursor.  Step 2e of the source (re-widening by an epsilon when MapKit
itself clamps a zoom-out) cannot fire in the model, whose `setRegion` is
exact; the "zoom actually changed" test `|actualZoom - oldZoom| < 0.001`
is exact span equality in exact arithmetic. -/
def zoomAtPoint (cam : MapCam) (x y f : ℚ) : MapCam :=
  if cam.ready = false then cam
  else
    let cursorPageX := cam.rectLeft + x
    let cursorPageY := cam.rectTop + y
    let targetCoord := pageToCoord cam cursorPageX cursorPageY
    let oldSpan := cam.latSpan
    let cam1 := { cam with centerLat := 0 }
    let aspectRatio := cam1.lngSpan / cam1.latSpan
    let newLatSpan := clampSpan (cam1.latSpan / f)
    let newLngSpan := newLatSpan * aspectRatio
    let cam2 := { cam1 with latSpan := newLatSpan, lngSpan := newLngSpan }
    let cam3 := { cam2 with centerLat := cam.centerLat, centerLng := cam.centerLng }
    if newLatSpan = oldSpan then cam3
    else
      let targetPage := coordToPage cam3 targetCoord.1 targetCoord.2
      panBy cam3 (targetPage.1 - cursorPageX) (targetPage.2 - cursorPageY)

lemma clampLat_mem (q : ℚ) : -85 ≤ clampLat q ∧ clampLat q ≤ 85 := by
  unfold clampLat
  constructor
  · exact le_max_left _ _
  · exact max_le (by norm_num) (min_le_left _ _)

lemma normLng_mem (q : ℚ) : -180 ≤ normLng q ∧ normLng q ≤ 180 := by
  unfold normLng
  split
  · rename_i h
    have h1 : (q - 180) / 360 ≤ (⌈(q - 180) / 360⌉ : ℚ) := Int.le_ceil _
    have h2 : ((⌈(q - 180) / 360⌉ : ℤ) : ℚ) < (q - 180) / 360 + 1 := Int.ceil_lt_add_one _
    constructor <;> nlinarith
  · split
    · rename_i h h2
      have h1 : (-180 - q) / 360 ≤ (⌈(-180 - q) / 360⌉ : ℚ) := Int.le_ceil _
      have h3 : ((⌈(-180 - q) / 360⌉ : ℤ) : ℚ) < (-180 - q) / 360 + 1 := Int.ceil_lt_add_one _
      constructor <;> nlinarith
    · rename_i h h2
      constructor <;> linarith [not_lt.1 h, not_lt.1 h2]

lemma clampLat_eq_self (q : ℚ) (h1 : -85 ≤ q) (h2 : q ≤ 85) : clampLat q = q := by
  unfold clampLat
  rw [min_eq_right h2, max_eq_right h1]

lemma normLng_eq_self (q : ℚ) (h1 : -180 ≤ q) (h2 : q ≤ 180) : normLng q = q := by
  unfold normLng
  rw [if_neg (not_lt.2 h2), if_neg (not_lt.2 h1)]

/-- **C10.** Whatever the starting camera state and pixel offset, the
centre `panBy` produces has latitude in `[-85, 85]` and longitude in
`[-180, 180]` (when the map is ready; otherwise the call is a no-op). -/
theorem C10_panBy_center_bounds (cam : MapCam) (h : cam.ready = true) (dx dy : ℚ) :
    -85 ≤ (panBy cam dx dy).centerLat ∧ (panBy cam dx dy).centerLat ≤ 85 ∧
      -180 ≤ (panBy cam dx dy).centerLng ∧ (panBy cam dx dy).centerLng ≤ 180 := by
  have hnot : ¬ cam.ready = false := by simp [h]
  unfold panBy
  rw [if_neg hnot]
  refine ⟨(clampLat_mem _).1, (clampLat_mem _).2, (normLng_mem _).1, (normLng_mem _).2⟩

/-- **C10, witness** at a concrete camera near the bounds and a large
pan. -/
theorem C10_panBy_center_bounds_witness :
    -85 ≤ (panBy ⟨true, 84, 179, 2, 2, 1, 0, 100, 100, 0, 0⟩ 1000 (-2000)).centerLat ∧
      (panBy ⟨true, 84, 179, 2, 2, 1, 0, 100, 100, 0, 0⟩ 1000 (-2000)).centerLat ≤ 85 ∧
      -180 ≤ (panBy ⟨true, 84, 179, 2, 2, 1, 0, 100, 100, 0, 0⟩ 1000 (-2000)).centerLng ∧
      (panBy ⟨true, 84, 179, 2, 2, 1, 0, 100, 100, 0, 0⟩ 1000 (-2000)).centerLng ≤ 180 :=
  C10_panBy_center_bounds ⟨true, 84, 179, 2, 2, 1, 0, 100, 100, 0, 0⟩ rfl 1000 (-2000)

/-- A pan by `(dx, dy)` that engages neither the latitude clamp nor the
longitude normalisation shifts every coordinate's page point by exactly
`(-dx, -dy)` — the algebraic heart of anchor preservation. -/
lemma coordToPage_panBy (cam : MapCam) (hready : cam.ready = true)
    (hw : cam.width ≠ 0) (hh : cam.height ≠ 0)
    (hls : cam.latSpan ≠ 0) (hlg : cam.lngSpan ≠ 0)
    (hrot : cam.rotC ^ 2 + cam.rotS ^ 2 = 1) (dx dy lat lng : ℚ)
    (hlat1 : -85 ≤ panByRawLat cam dx dy) (hlat2 : panByRawLat cam dx dy ≤ 85)
    (hlng1 : -180 ≤ panByRawLng cam dx dy) (hlng2 : panByRawLng cam dx dy ≤ 180) :
    coordToPage (panBy cam dx dy) lat lng
      = ((coordToPage cam lat lng).1 - dx, (coordToPage cam lat lng).2 - dy) := by
  have hnot : ¬ cam.ready = false := by simp [hready]
  unfold panBy
  rw [if_neg hnot, clampLat_eq_self _ hlat1 hlat2, normLng_eq_self _ hlng1 hlng2]
  unfold coordToPage panByRawLat panByRawLng
  apply Prod.ext
  · simp only []
    field_simp
    linear_combination (-2 * dx * cam.lngSpan * cam.latSpan) * hrot
  · simp only []
    field_simp
    linear_combination (-2 * dy * cam.lngSpan * cam.latSpan) * hrot

lemma clampSpan_pos (v : ℚ) : 0 < clampSpan v :=
  lt_of_lt_of_le (by norm_num [ZOOM_MIN_SPAN]) (le_max_left _ _)

lemma zoomAtPoint_fields (cam : MapCam) (x y f : ℚ) (hready : cam.ready = true) :
    (zoomAtPoint cam x y f).ready = true ∧
    (zoomAtPoint cam x y f).width = cam.width ∧
    (zoomAtPoint cam x y f).height = cam.height ∧
    (zoomAtPoint cam x y f).rotC = cam.rotC ∧
    (zoomAtPoint cam x y f).rotS = cam.rotS ∧
    (zoomAtPoint cam x y f).rectLeft = cam.rectLeft ∧
    (zoomAtPoint cam x y f).rectTop = cam.rectTop ∧
    (zoomAtPoint cam x y f).latSpan = clampSpan (cam.latSpan / f) ∧
    (zoomAtPoint cam x y f).lngSpan = clampSpan (cam.latSpan / f) * (cam.lngSpan / cam.latSpan) := by
  have hnot : ¬ cam.ready = false := by simp [hready]
  unfold zoomAtPoint panBy
  rw [if_neg hnot]
  dsimp only
  split_ifs <;> simp [hready]

/-- **C1.** One single-pointer move step — the anchor-preserving zoom of
`zoomAtPoint` at the pointer position followed by the anchor-repositioning
pan of `positionCoordinateAtScreenPoint` — leaves the anchor's geographic
coordinate projecting back *exactly* to the pointer's screen position
(pixel error `0`, within any tolerance), provided the viewport is
non-degenerate, `(rotC, rotS)` is a genuine cosine/sine pair, and the
repositioning pan engages neither the latitude clamp nor the longitude
wrap. -/
theorem C1_anchor_reprojects_to_pointer (cam cam1 : MapCam) (zx zy f aLat aLng px py : ℚ)
    (hz : cam1 = zoomAtPoint cam zx zy f)
    (hready : cam.ready = true) (hw : cam.width ≠ 0) (hh : cam.height ≠ 0)
    (hlspos : 0 < cam.latSpan) (hlgpos : 0 < cam.lngSpan)
    (hrot : cam.rotC ^ 2 + cam.rotS ^ 2 = 1)
    (hlat1 : -85 ≤ panByRawLat cam1 ((coordToPage cam1 aLat aLng).1 - px)
        ((coordToPage cam1 aLat aLng).2 - py))
    (hlat2 : panByRawLat cam1 ((coordToPage cam1 aLat aLng).1 - px)
        ((coordToPage cam1 aLat aLng).2 - py) ≤ 85)
    (hlng1 : -180 ≤ panByRawLng cam1 ((coordToPage cam1 aLat aLng).1 - px)
        ((coordToPage cam1 aLat aLng).2 - py))
    (hlng2 : panByRawLng cam1 ((coordToPage cam1 aLat aLng).1 - px)
        ((coordToPage cam1 aLat aLng).2 - py) ≤ 180) :
    coordToPage (positionCoordinateAtScreenPoint cam1 aLat aLng px py) aLat aLng = (px, py) := by
  obtain ⟨f1, f2, f3, f4, f5, f6, f7, f8, f9⟩ := zoomAtPoint_fields cam zx zy f hready
  rw [← hz] at f1 f2 f3 f4 f5 f8 f9
  have hw1 : cam1.width ≠ 0 := by rw [f2]; exact hw
  have hh1 : cam1.height ≠ 0 := by rw [f3]; exact hh
  have hls1 : cam1.latSpan ≠ 0 := by rw [f8]; exact ne_of_gt (clampSpan_pos _)
  have hlg1 : cam1.lngSpan ≠ 0 := by
    rw [f9]
    exact ne_of_gt (mul_pos (clampSpan_pos _) (div_pos hlgpos hlspos))
  have hrot1 : cam1.rotC ^ 2 + cam1.rotS ^ 2 = 1 := by rw [f4, f5]; exact hrot
  have hnot1 : ¬ cam1.ready = false := by simp [f1]
  unfold positionCoordinateAtScreenPoint
  rw [if_neg hnot1]
  rw [coordToPage_panBy cam1 f1 hw1 hh1 hls1 hlg1 hrot1 _ _ aLat aLng hlat1 hlat2 hlng1 hlng2]
  apply Prod.ext <;> simp

/-- **C1, witness** at a concrete unrotated camera, a zoom-in by one level
at the viewport centre and a pointer at `(60, 45)`. -/
theorem C1_anchor_reprojects_to_pointer_witness :
    coordToPage
        (positionCoordinateAtScreenPoint
          (zoomAtPoint ⟨true, 0, 0, 2, 2, 1, 0, 100, 100, 0, 0⟩ 50 50 2)
          (1 / 10) (1 / 5) 60 45)
        (1 / 10) (1 / 5) = (60, 45) := by
  have hcam1 : zoomAtPoint ⟨true, 0, 0, 2, 2, 1, 0, 100, 100, 0, 0⟩ 50 50 2
      = ⟨true, 0, 0, 1, 1, 1, 0, 100, 100, 0, 0⟩ := by
    norm_num [zoomAtPoint, pageToCoord, coordToPage, clampSpan, ZOOM_MIN_SPAN, ZOOM_MAX_SPAN,
      panBy, panByRawLat, panByRawLng, clampLat, normLng, min_def, max_def]
  exact C1_anchor_reprojects_to_pointer ⟨true, 0, 0, 2, 2, 1, 0, 100, 100, 0, 0⟩
    (zoomAtPoint ⟨true, 0, 0, 2, 2, 1, 0, 100, 100, 0, 0⟩ 50 50 2)
    50 50 2 (1 / 10) (1 / 5) 60 45 rfl rfl (by norm_num) (by norm_num)
    (by norm_num) (by norm_num) (by norm_num)
    (by rw [hcam1]; norm_num [panByRawLat, coordToPage])
    (by rw [hcam1]; norm_num [panByRawLat, coordToPage])
    (by rw [hcam1]; norm_num [panByRawLng, coordToPage])
    (by rw [hcam1]; norm_num [panByRawLng, coordToPage])

/-! ## Inertia Engine (`PassThroughHandler.startInertia`)

The release velocity `(vx, vy)` below is the per-frame velocity
`startInertia` derives from the weighted sample average; the `animate`
loop then pans by its negation each frame under geometric friction. -/

/-- `friction = 0.95` (deceleration factor per frame). -/
def friction : ℚ := 0.95

/-- `minVelocity = 0.5` (stop once speed drops below this). -/
def minVelocity : ℚ := 0.5

/-- The recursive `animate` body of `startInertia` with explicit fuel:
emit the pan delta `(-vx, -vy)`, apply friction, and schedule another
frame only while the decayed speed exceeds `minVelocity`.  The fuel only
caps the recursion depth; C5 shows a finite fuel suffices, after which
the output is fuel-independent. -/
noncomputable def inertiaLoop : ℕ → ℝ × ℝ → List (ℝ × ℝ)
  | 0, _ => []
  | fuel + 1, v =>
      let d := (-v.1, -v.2)
      let vx := (friction : ℝ) * v.1
      let vy := (friction : ℝ) * v.2
      if (minVelocity : ℝ) < Real.sqrt (vx * vx + vy * vy) then d :: inertiaLoop fuel (vx, vy)
      else [d]

/-- `startInertia`'s final gate and loop: no frame at all when the initial
speed is below `minVelocity`, else the `animate` loop. -/
noncomputable def startInertiaRun (fuel : ℕ) (vx vy : ℝ) : List (ℝ × ℝ) :=
  if Real.sqrt (vx * vx + vy * vy) < (minVelocity : ℝ) then []
  else inertiaLoop fuel (vx, vy)

/-- Magnitude of a pan delta, `Math.sqrt(vx*vx + vy*vy)`. -/
noncomputable def deltaMag (p : ℝ × ℝ) : ℝ := Real.sqrt (p.1 * p.1 + p.2 * p.2)

lemma sqrt_scaled (a vx vy : ℝ) (ha : 0 ≤ a) :
    Real.sqrt ((a * vx) * (a * vx) + (a * vy) * (a * vy))
      = a * Real.sqrt (vx * vx + vy * vy) := by
  rw [show (a * vx) * (a * vx) + (a * vy) * (a * vy) = a ^ 2 * (vx * vx + vy * vy) by ring,
    Real.sqrt_mul (sq_nonneg a), Real.sqrt_sq ha]

lemma inertiaLoop_eq (m : ℕ) : ∀ (vx vy : ℝ),
    (∀ k : ℕ, 1 ≤ k → k < m + 1 →
      (minVelocity : ℝ) < (friction : ℝ) ^ k * Real.sqrt (vx * vx + vy * vy)) →
    (friction : ℝ) ^ (m + 1) * Real.sqrt (vx * vx + vy * vy) ≤ (minVelocity : ℝ) →
    ∀ fuel, m + 1 ≤ fuel →
      inertiaLoop fuel (vx, vy)
        = List.ofFn (fun k : Fin (m + 1) =>
            (-((friction : ℝ) ^ (k : ℕ) * vx), -((friction : ℝ) ^ (k : ℕ) * vy))) := by
  have hf0 : (0:ℝ) ≤ (friction : ℝ) := by norm_num [friction]
  induction m with
  | zero =>
    intro vx vy _ hle fuel hfuel
    obtain ⟨fuel, rfl⟩ : ∃ n, fuel = n + 1 := ⟨fuel - 1, by omega⟩
    rw [inertiaLoop]
    rw [if_neg]
    · simp [List.ofFn_succ]
    · rw [sqrt_scaled _ _ _ hf0]
      rw [pow_one] at hle
      exact not_lt.2 hle
  | succ m ih =>
    intro vx vy hlt hle fuel hfuel
    obtain ⟨fuel, rfl⟩ : ∃ n, fuel = n + 1 := ⟨fuel - 1, by omega⟩
    rw [inertiaLoop]
    rw [if_pos]
    · have hih := ih ((friction : ℝ) * vx) ((friction : ℝ) * vy) ?hlt ?hle fuel (by omega)
      · rw [hih]
        conv_rhs => rw [List.ofFn_succ]
        congr 1
        · simp
        · congr 1
          funext i
          rw [Prod.mk.injEq]
          constructor <;> · simp only [Fin.val_succ]; ring
      case hlt =>
        intro k hk1 hk2
        rw [sqrt_scaled _ _ _ hf0]
        have hlt2 := hlt (k + 1) (by omega) (by omega)
        calc (minVelocity : ℝ)
            < (friction : ℝ) ^ (k + 1) * Real.sqrt (vx * vx + vy * vy) := hlt2
          _ = (friction : ℝ) ^ k * ((friction : ℝ) * Real.sqrt (vx * vx + vy * vy)) := by ring
      case hle =>
        rw [sqrt_scaled _ _ _ hf0]
        calc (friction : ℝ) ^ (m + 1) * ((friction : ℝ) * Real.sqrt (vx * vx + vy * vy))
            = (friction : ℝ) ^ (m + 2) * Real.sqrt (vx * vx + vy * vy) := by ring
          _ ≤ (minVelocity : ℝ) := hle
    · rw [sqrt_scaled _ _ _ hf0]
      have hlt1 := hlt 1 le_rfl (by omega)
      rw [pow_one] at hlt1
      exact hlt1

/-- **C5.** Inertia decay: if the initial release speed is below
`minVelocity` no pan delta is ever issued; if it is above, there is a
frame count `n` — the first at which the decayed speed falls to or below
`minVelocity` — such that with any fuel at least `n` the engine emits
exactly the deltas `(-(0.95^k·vx), -(0.95^k·vy))` for `k < n`, whose
magnitudes satisfy `‖d(k+1)‖ = 0.95·‖d(k)‖ < ‖d(k)‖` frame over frame. -/
theorem C5_inertia_decay (vx vy : ℝ) :
    (Real.sqrt (vx * vx + vy * vy) < (minVelocity : ℝ) →
      ∀ fuel, startInertiaRun fuel vx vy = []) ∧
    ((minVelocity : ℝ) < Real.sqrt (vx * vx + vy * vy) →
      ∃ n : ℕ, 0 < n ∧
        (friction : ℝ) ^ n * Real.sqrt (vx * vx + vy * vy) ≤ (minVelocity : ℝ) ∧
        (∀ k : ℕ, 1 ≤ k → k < n →
          (minVelocity : ℝ) < (friction : ℝ) ^ k * Real.sqrt (vx * vx + vy * vy)) ∧
        (∀ fuel, n ≤ fuel →
          startInertiaRun fuel vx vy
            = List.ofFn (fun k : Fin n =>
                (-((friction : ℝ) ^ (k : ℕ) * vx), -((friction : ℝ) ^ (k : ℕ) * vy)))) ∧
        (∀ k : ℕ, k + 1 < n →
          deltaMag (-((friction : ℝ) ^ (k + 1) * vx), -((friction : ℝ) ^ (k + 1) * vy))
              = (friction : ℝ) *
                deltaMag (-((friction : ℝ) ^ k * vx), -((friction : ℝ) ^ k * vy)) ∧
          deltaMag (-((friction : ℝ) ^ (k + 1) * vx), -((friction : ℝ) ^ (k + 1) * vy))
              < deltaMag (-((friction : ℝ) ^ k * vx), -((friction : ℝ) ^ k * vy)))) := by
  have hf0 : (0:ℝ) < (friction : ℝ) := by norm_num [friction]
  have hf1 : (friction : ℝ) < 1 := by norm_num [friction]
  set s := Real.sqrt (vx * vx + vy * vy) with hs
  constructor
  · intro hlt fuel
    rw [startInertiaRun, if_pos hlt]
  · intro hgt
    have hmin0 : (0:ℝ) < (minVelocity : ℝ) := by norm_num [minVelocity]
    have hspos : 0 < s := lt_trans hmin0 hgt
    have hex : ∃ n : ℕ, (friction : ℝ) ^ n * s ≤ (minVelocity : ℝ) := by
      obtain ⟨n, hn⟩ := exists_pow_lt_of_lt_one (div_pos hmin0 hspos) hf1
      exact ⟨n, le_of_lt ((lt_div_iff hspos).1 hn)⟩
    letI : DecidablePred fun n : ℕ => (friction : ℝ) ^ n * s ≤ (minVelocity : ℝ) :=
      fun _ => Classical.propDecidable _
    have hpos : 0 < Nat.find hex := by
      rcases Nat.eq_zero_or_pos (Nat.find hex) with h | h
      · exfalso
        have hsp := Nat.find_spec hex
        rw [h, pow_zero, one_mul] at hsp
        exact absurd hgt (not_lt.2 hsp)
      · exact h
    refine ⟨Nat.find hex, hpos, Nat.find_spec hex, ?_, ?_, ?_⟩
    · intro k _ hk
      exact lt_of_not_le (Nat.find_min hex hk)
    · intro fuel hfuel
      obtain ⟨m, hm⟩ : ∃ m, Nat.find hex = m + 1 := ⟨Nat.find hex - 1, by omega⟩
      rw [startInertiaRun, if_neg (not_lt.2 (le_of_lt hgt))]
      rw [hm]
      apply inertiaLoop_eq m vx vy
      · intro k hk1 hk2
        exact lt_of_not_le (Nat.find_min hex (by omega))
      · rw [← hm]
        exact Nat.find_spec hex
      · omega
    · intro k _
      have hmag : ∀ j : ℕ, deltaMag (-((friction : ℝ) ^ j * vx), -((friction : ℝ) ^ j * vy))
          = (friction : ℝ) ^ j * s := by
        intro j
        have hj : (0:ℝ) ≤ (friction : ℝ) ^ j := le_of_lt (pow_pos hf0 j)
        rw [deltaMag]
        rw [show -((friction : ℝ) ^ j * vx) * -((friction : ℝ) ^ j * vx)
              + -((friction : ℝ) ^ j * vy) * -((friction : ℝ) ^ j * vy)
            = ((friction : ℝ) ^ j * vx) * ((friction : ℝ) ^ j * vx)
              + ((friction : ℝ) ^ j * vy) * ((friction : ℝ) ^ j * vy) by ring]
        exact sqrt_scaled _ _ _ hj
      constructor
      · rw [hmag, hmag]
        ring
      · rw [hmag, hmag]
        have hks : 0 < (friction : ℝ) ^ k * s := mul_pos (pow_pos hf0 k) hspos
        calc (friction : ℝ) ^ (k + 1) * s
            = (friction : ℝ) * ((friction : ℝ) ^ k * s) := by ring
          _ < 1 * ((friction : ℝ) ^ k * s) := mul_lt_mul_of_pos_right hf1 hks
          _ = (friction : ℝ) ^ k * s := by ring

/-- **C5, witness**: release velocity `(3, 4)`, speed `5`, is above the
threshold, so the decayed delta sequence exists as described. -/
theorem C5_inertia_decay_witness :
    (minVelocity : ℝ) < Real.sqrt (3 * 3 + 4 * 4) ∧
      (∃ n : ℕ, 0 < n ∧
        (friction : ℝ) ^ n * Real.sqrt (3 * 3 + 4 * 4) ≤ (minVelocity : ℝ) ∧
        (∀ k : ℕ, 1 ≤ k → k < n →
          (minVelocity : ℝ) < (friction : ℝ) ^ k * Real.sqrt (3 * 3 + 4 * 4)) ∧
        (∀ fuel, n ≤ fuel →
          startInertiaRun fuel 3 4
            = List.ofFn (fun k : Fin n =>
                (-((friction : ℝ) ^ (k : ℕ) * 3), -((friction : ℝ) ^ (k : ℕ) * 4)))) ∧
        (∀ k : ℕ, k + 1 < n →
          deltaMag (-((friction : ℝ) ^ (k + 1) * 3), -((friction : ℝ) ^ (k + 1) * 4))
              = (friction : ℝ) *
                deltaMag (-((friction : ℝ) ^ k * 3), -((friction : ℝ) ^ k * 4)) ∧
          deltaMag (-((friction : ℝ) ^ (k + 1) * 3), -((friction : ℝ) ^ (k + 1) * 4))
              < deltaMag (-((friction : ℝ) ^ k * 3), -((friction : ℝ) ^ k * 4)))) := by
  have hs : Real.sqrt (3 * 3 + 4 * 4) = 5 := by
    rw [show (3 * 3 + 4 * 4 : ℝ) = 5 ^ 2 by norm_num, Real.sqrt_sq (by norm_num)]
  have hgt : (minVelocity : ℝ) < Real.sqrt (3 * 3 + 4 * 4) := by
    rw [hs]
    norm_num [minVelocity]
  exact ⟨hgt, (C5_inertia_decay 3 4).2 hgt⟩

/-! ## Gesture Handler (`PassThroughHandler.ts`) -/

/-- `PointerState` of the handler. -/
structure PState where
  pointerId : ℕ
  startX : ℚ
  startY : ℚ
  lastX : ℚ
  lastY : ℚ
  lastTime : ℚ

/-- A camera command the handler issues against the map provider. -/
inductive Cmd where
  | pan (dx dy : ℚ)
  | zoomAt (x y : ℚ) (delta : ℝ)
  | rotate (degrees : ℚ)

/-- Whether a command is a pan. -/
def Cmd.isPan : Cmd → Bool
  | .pan _ _ => true
  | _ => false

/-- Whether a command is an anchor-preserving zoom. -/
def Cmd.isZoomAt : Cmd → Bool
  | .zoomAt _ _ _ => true
  | _ => false

/-- Whether a command is a rotation. -/
def Cmd.isRotation : Cmd → Bool
  | .rotate _ => true
  | _ => false

/-! ### C8 — the two-pointer branch of `onPointerMove` (lines 552–574)

With exactly two pointers the handler computes only their centroid — the
source comment reads "zoom and rotate are handled natively", and
`AppleMapProvider.init` leaves `isZoomEnabled`/`isRotateEnabled` true —
and pans by the negated centroid delta when it exceeds `0.1` px. -/

/-- The two-pointer branch: centroid, threshold-gated pan, centroid
tracking update.  Returns the issued commands and the new
`lastTwoFingerCentroid`. -/
def twoFingerMove (p1 p2 : PState) (lastCentroid : Option (ℚ × ℚ)) :
    List Cmd × Option (ℚ × ℚ) :=
  let centroidX := (p1.lastX + p2.lastX) / 2
  let centroidY := (p1.lastY + p2.lastY) / 2
  let cmds :=
    match lastCentroid with
    | some c =>
        let panDx := centroidX - c.1
        let panDy := centroidY - c.2
        if 0.1 < |panDx| ∨ 0.1 < |panDy| then [Cmd.pan (-panDx) (-panDy)] else []
    | none => []
  (cmds, some (centroidX, centroidY))

/-- **C8, counterexample.** Between the previous frame (pointers at
`(90, 100)` and `(110, 100)`, centroid `(100, 100)`) and this one
(pointers at `(90, 100)` and `(130, 120)`) both the pairwise distance and
the angle changed, yet the branch issues only a pan — no zoom and no
rotation command — contradicting the claim that distance/angle deltas
drive zoom and rotation directly. -/
theorem C8_cex_no_zoom_or_rotation_command :
    twoFingerMove ⟨1, 90, 100, 90, 100, 0⟩ ⟨2, 110, 100, 130, 120, 0⟩ (some (100, 100))
      = ([Cmd.pan (-10) (-10)], some (110, 110)) ∧
    ((90 - 130 : ℚ) ^ 2 + (100 - 120 : ℚ) ^ 2 ≠ (90 - 110 : ℚ) ^ 2 + (100 - 100 : ℚ) ^ 2) ∧
    (∀ c ∈ (twoFingerMove ⟨1, 90, 100, 90, 100, 0⟩ ⟨2, 110, 100, 130, 120, 0⟩
        (some (100, 100))).1, c.isZoomAt = false ∧ c.isRotation = false) := by
  refine ⟨?_, by norm_num, ?_⟩
  · simp only [twoFingerMove]
    norm_num
  · intro c hc
    simp only [twoFingerMove] at hc
    norm_num at hc
    subst hc
    exact ⟨rfl, rfl⟩

/-- **C8, amended.** On a two-pointer move the handler computes only the
centroid: it never issues a zoom or rotation command (pinch zoom and
rotation are delegated to the native map gestures); it issues exactly one
pan — by the negated centroid delta — when a previous centroid exists and
the delta exceeds `0.1` px in either axis, and no command otherwise; and
it records the current centroid for the next frame. -/
theorem C8_two_finger_centroid_pan_only (p1 p2 : PState) (last : Option (ℚ × ℚ)) :
    (∀ c ∈ (twoFingerMove p1 p2 last).1, c.isPan = true ∧ c.isZoomAt = false ∧
      c.isRotation = false) ∧
    (twoFingerMove p1 p2 last).2
      = some ((p1.lastX + p2.lastX) / 2, (p1.lastY + p2.lastY) / 2) ∧
    (last = none → (twoFingerMove p1 p2 last).1 = []) ∧
    (∀ cx cy, last = some (cx, cy) →
      ((0.1 < |(p1.lastX + p2.lastX) / 2 - cx| ∨ 0.1 < |(p1.lastY + p2.lastY) / 2 - cy|) →
        (twoFingerMove p1 p2 last).1
          = [Cmd.pan (-((p1.lastX + p2.lastX) / 2 - cx)) (-((p1.lastY + p2.lastY) / 2 - cy))]) ∧
      (¬ (0.1 < |(p1.lastX + p2.lastX) / 2 - cx| ∨ 0.1 < |(p1.lastY + p2.lastY) / 2 - cy|) →
        (twoFingerMove p1 p2 last).1 = [])) := by
  refine ⟨?_, rfl, ?_, ?_⟩
  · intro c hc
    match hlast : last with
    | none => simp [twoFingerMove, hlast] at hc
    | some cc =>
      simp only [twoFingerMove, hlast] at hc
      by_cases hthr : (0.1 : ℚ) < |(p1.lastX + p2.lastX) / 2 - cc.1| ∨
          0.1 < |(p1.lastY + p2.lastY) / 2 - cc.2|
      · rw [if_pos hthr] at hc
        simp at hc
        subst hc
        exact ⟨rfl, rfl, rfl⟩
      · rw [if_neg hthr] at hc
        simp at hc
  · intro hlast
    simp [twoFingerMove, hlast]
  · intro cx cy hlast
    subst hlast
    constructor
    · intro hthr
      simp only [twoFingerMove]
      rw [if_pos hthr]
    · intro hthr
      simp only [twoFingerMove]
      rw [if_neg hthr]

/-! ### C9 — gear-mode rotation

`ROTATION_MODE = 'gear'` in the source, so only the gear branch is
modelled.  Activation is decided in `onPointerMove` from the anchor's
screen position; the rotation itself is applied in the visualization loop
from the (predicted) finger position. -/

/-- Gear-zone membership test of `onPointerMove` (gear mode): the anchor's
viewport x within `rect.width / 16` of the left or right edge
(`minHorizontalDistance <= edgeThreshold`). -/
def gearZoneActive (anchorScreenX width : ℚ) : Bool :=
  decide (min anchorScreenX (width - anchorScreenX) ≤ width / 16)

/-- The state the gear-rotation step of the visualization loop reads and
writes: the map rotation in degrees and the tracked reference y, plus the
which-edge flags set by `onPointerMove`. -/
structure GearState where
  rotation : ℚ
  lastGearRotationY : ℚ
  gearNearLeftEdge : Bool
  gearNearRightEdge : Bool

/-- The gear-rotation portion of `startVisualizationLoop` (lines 144–167):
on the first frame only initialise `lastGearRotationY` (sentinel `0`);
afterwards convert vertical movement to degrees via
`(deltaY / rect.height) * 360`, negated at the right edge, and apply it to
the rotation only when its magnitude exceeds `0.01`°. -/
def gearRotationStep (s : GearState) (predictedY height : ℚ) : GearState :=
  if s.lastGearRotationY = 0 then { s with lastGearRotationY := predictedY }
  else
    let deltaY := predictedY - s.lastGearRotationY
    let rotationRate := deltaY / height * 360
    let rotationDelta :=
      if s.gearNearLeftEdge then rotationRate
      else if s.gearNearRightEdge then -rotationRate
      else rotationRate
    let rotation :=
      if 0.01 < |rotationDelta| then s.rotation + rotationDelta else s.rotation
    { s with rotation := rotation, lastGearRotationY := predictedY }

/-- **C9, counterexample.** The claim says each vertical movement `Δy`
produces a rotation of `Δy / rollingRadius` radians.  A movement of
`Δy = 1/50` px at viewport height `1000` would give the non-zero angle
`(1/50)·2π/1000` radians, but its degree value `0.0072`° is below the
`0.01`° dead band, so the code leaves the rotation unchanged. -/
theorem C9_cex_dead_band_skips_small_rotation :
    (gearRotationStep ⟨0, 10, true, false⟩ (10 + 1 / 50) 1000).rotation = 0 ∧
      (10 + 1 / 50 - 10 : ℚ) ≠ 0 ∧
      ((10 + 1 / 50 - 10 : ℚ) : ℝ) / ((1000 : ℝ) / (2 * π)) ≠ 0 := by
  refine ⟨?_, by norm_num, ?_⟩
  · norm_num [gearRotationStep]
    rw [abs_of_nonneg (by norm_num : (0:ℚ) ≤ 9 / 1250)]
    norm_num
  have hpi := Real.pi_pos
  have h1 : ((10 + 1 / 50 - 10 : ℚ) : ℝ) = 1 / 50 := by norm_num
  rw [h1, div_div_eq_mul_div]
  positivity

/-- **C9, amended.** Gear rotation activates exactly when the anchor's
screen x is within `width/16` of the left or right viewport edge; once
tracking is initialised, a vertical movement `Δy` whose degree value
`Δy/height·360` exceeds the `0.01`° dead band rotates the map by exactly
that amount — the equivalent of `Δy / rollingRadius` radians for
`rollingRadius = height/(2π)` — clockwise-positive at the left edge and
negated at the right edge. -/
theorem C9_gear_rotation_rolls_without_slippage
    (anchorScreenX width : ℚ) (s : GearState) (predY height : ℚ)
    (hinit : s.lastGearRotationY ≠ 0)
    (hband : 0.01 < |(predY - s.lastGearRotationY) / height * 360|) :
    (gearZoneActive anchorScreenX width = true ↔
      (anchorScreenX ≤ width / 16 ∨ width - anchorScreenX ≤ width / 16)) ∧
    (s.gearNearLeftEdge = true →
      (gearRotationStep s predY height).rotation
          = s.rotation + (predY - s.lastGearRotationY) / height * 360 ∧
      ((((gearRotationStep s predY height).rotation - s.rotation : ℚ) : ℝ) * π / 180
          = ((predY - s.lastGearRotationY : ℚ) : ℝ) / (((height : ℚ) : ℝ) / (2 * π)))) ∧
    (s.gearNearLeftEdge = false → s.gearNearRightEdge = true →
      (gearRotationStep s predY height).rotation
          = s.rotation - (predY - s.lastGearRotationY) / height * 360 ∧
      ((((gearRotationStep s predY height).rotation - s.rotation : ℚ) : ℝ) * π / 180
          = -(((predY - s.lastGearRotationY : ℚ) : ℝ) / (((height : ℚ) : ℝ) / (2 * π))))) := by
  refine ⟨?_, ?_, ?_⟩
  · simp only [gearZoneActive, decide_eq_true_eq, min_le_iff]
  · intro hleft
    have hrot : (gearRotationStep s predY height).rotation
        = s.rotation + (predY - s.lastGearRotationY) / height * 360 := by
      rw [gearRotationStep, if_neg hinit]
      simp only [hleft, if_true]
      rw [if_pos hband]
    refine ⟨hrot, ?_⟩
    rw [hrot]
    push_cast
    rw [div_div_eq_mul_div]
    ring
  · intro hleft hright
    have hband2 : (0.01 : ℚ) < |-((predY - s.lastGearRotationY) / height * 360)| := by
      rwa [abs_neg]
    have hrot : (gearRotationStep s predY height).rotation
        = s.rotation - (predY - s.lastGearRotationY) / height * 360 := by
      rw [gearRotationStep, if_neg hinit]
      simp only [hleft, hright, if_false, if_true, Bool.false_eq_true]
      rw [if_pos hband2]
      ring
    refine ⟨hrot, ?_⟩
    rw [hrot]
    push_cast
    rw [div_div_eq_mul_div]
    ring

/-- **C9, witness**: a `100` px downward movement at height `1000` with the
gear at the left edge (`anchor x = 10`, width `800`) rotates by `36`°. -/
theorem C9_gear_rotation_rolls_without_slippage_witness :
    (gearZoneActive 10 800 = true ↔ ((10 : ℚ) ≤ 800 / 16 ∨ (800 : ℚ) - 10 ≤ 800 / 16)) ∧
    ((⟨0, 100, true, false⟩ : GearState).gearNearLeftEdge = true →
      (gearRotationStep ⟨0, 100, true, false⟩ 200 1000).rotation
          = (⟨0, 100, true, false⟩ : GearState).rotation + (200 - 100) / 1000 * 360 ∧
      ((((gearRotationStep ⟨0, 100, true, false⟩ 200 1000).rotation
            - (⟨0, 100, true, false⟩ : GearState).rotation : ℚ) : ℝ) * π / 180
          = ((200 - 100 : ℚ) : ℝ) / (((1000 : ℚ) : ℝ) / (2 * π)))) ∧
    ((⟨0, 100, true, false⟩ : GearState).gearNearLeftEdge = false →
      (⟨0, 100, true, false⟩ : GearState).gearNearRightEdge = true →
      (gearRotationStep ⟨0, 100, true, false⟩ 200 1000).rotation
          = (⟨0, 100, true, false⟩ : GearState).rotation - (200 - 100) / 1000 * 360 ∧
      ((((gearRotationStep ⟨0, 100, true, false⟩ 200 1000).rotation
            - (⟨0, 100, true, false⟩ : GearState).rotation : ℚ) : ℝ) * π / 180
          = -(((200 - 100 : ℚ) : ℝ) / (((1000 : ℚ) : ℝ) / (2 * π))))) :=
  C9_gear_rotation_rolls_without_slippage 10 800 ⟨0, 100, true, false⟩ 200 1000
    (by norm_num) (by norm_num)

/-! ### Pointer lifecycle (`onPointerDown` / `onPointerMove` / `onPointerUp`)

The `pointers` JavaScript `Map` is an insertion-ordered association list;
`set` keeps an existing key's position, `delete` removes by key.  The
lifecycle state carries the pointer map, the drag anchor, the velocity
ring buffer, and the inertia animation (`inertiaAnimationId !== null`
plus the decaying per-frame velocity the `animate` closure holds).  The
purely visual steps of the handlers (trail visualizer, indicators) and
the single-pointer zoom/gear bookkeeping — modelled separately — do not
touch these fields. -/

/-- A velocity sample `(vx, vy, time)`. -/
structure VSample where
  vx : ℚ
  vy : ℚ
  time : ℚ

/-- `maxVelocitySamples = 5`. -/
def maxVelocitySamples : ℕ := 5

/-- `Map.set`: replace in place when the key exists, else append. -/
def mapSet (ps : List PState) (p : PState) : List PState :=
  if ps.any (fun q => q.pointerId == p.pointerId) then
    ps.map (fun q => if q.pointerId == p.pointerId then p else q)
  else ps ++ [p]

/-- `Map.delete`. -/
def mapDelete (ps : List PState) (id : ℕ) : List PState :=
  ps.filter (fun q => !(q.pointerId == id))

/-- `Map.get`. -/
def mapGet (ps : List PState) (id : ℕ) : Option PState :=
  ps.find? (fun q => q.pointerId == id)

/-- `PassThroughHandler.getCoordinateAtScreenPoint`: the MapKit conversion
when the map and container are present, else `null`. -/
def getCoordinateAtScreenPoint (cam : MapCam) (clientX clientY : ℚ) : Option (ℚ × ℚ) :=
  if cam.ready then some (pageToCoord cam clientX clientY) else none

/-- The lifecycle slice of the handler state. -/
structure HandlerState where
  pointers : List PState
  mapAnchorPos : Option (ℚ × ℚ)
  lastTwoFingerCentroid : Option (ℚ × ℚ)
  velocitySamples : List VSample
  inertiaRunning : Bool
  inertiaVx : ℚ
  inertiaVy : ℚ

/-- Handler state before any event. -/
def initHandler : HandlerState := ⟨[], none, none, [], false, 0, 0⟩

/-- `startInertia`'s recent-sample filter (`now - s.time < 100`). -/
def recentSamples (samples : List VSample) (now : ℚ) : List VSample :=
  samples.filter (fun s => decide (now - s.time < 100))

/-- `startInertia`'s later-weighted average of the recent samples
(weight `i + 1` for the i-th sample). -/
def weightedAvgVelocity (recent : List VSample) : ℚ × ℚ :=
  let totalWeight := ((List.range recent.length).map (fun i => (i : ℚ) + 1)).sum
  (((recent.enum.map (fun p => p.2.vx * ((p.1 : ℚ) + 1))).sum) / totalWeight,
   ((recent.enum.map (fun p => p.2.vy * ((p.1 : ℚ) + 1))).sum) / totalWeight)

/-- Sum of consecutive inter-sample time gaps. -/
def timeGapsSum : List VSample → ℚ
  | a :: b :: rest => (b.time - a.time) + timeGapsSum (b :: rest)
  | _ => 0

/-- The per-frame release velocity `startInertia` computes: weighted
average velocity times the average inter-sample interval. -/
def inertiaVelocity (samples : List VSample) (now : ℚ) : ℚ × ℚ :=
  let recent := recentSamples samples now
  let avg := weightedAvgVelocity recent
  let avgDt := timeGapsSum recent / ((recent.length : ℚ) - 1)
  (avg.1 * avgDt, avg.2 * avgDt)

/-- The early returns of `startInertia`: an animation is scheduled only
with at least two samples, at least two of them recent, and release speed
at least `minVelocity`. -/
noncomputable def inertiaStarts (samples : List VSample) (now : ℚ) : Bool :=
  if samples.length < 2 then false
  else if (recentSamples samples now).length < 2 then false
  else
    let v := inertiaVelocity samples now
    if Real.sqrt ((v.1 : ℝ) * (v.1 : ℝ) + (v.2 : ℝ) * (v.2 : ℝ)) < (minVelocity : ℝ) then false
    else true

/-- `onPointerDown` (lifecycle slice): stop any inertia animation first,
clear the sample buffer, insert the pointer; two pointers reset centroid
tracking; a fresh single-pointer drag captures the anchor under the
cursor when the conversion resolves.  (The zoom-flag resets of the same
handler are modelled in `zoomSessionInit` below.) -/
def onPointerDownLife (cam : MapCam) (s : HandlerState) (id : ℕ) (x y now : ℚ) : HandlerState :=
  let s1 := { s with inertiaRunning := false, velocitySamples := [] }
  let pointers := mapSet s1.pointers ⟨id, x, y, x, y, now⟩
  let s2 := { s1 with pointers := pointers }
  let s3 := if pointers.length = 2 then { s2 with lastTwoFingerCentroid := none } else s2
  if pointers.length = 1 then
    match getCoordinateAtScreenPoint cam x y with
    | some coord => { s3 with mapAnchorPos := some coord }
    | none => s3
  else s3

/-- `onPointerMove` (lifecycle slice): unknown pointer ids are ignored; a
single-pointer move with positive `dt` pushes a velocity sample into the
ring buffer (bounded by `maxVelocitySamples`); the pointer record is
updated to the new position and time.  (The zoom-delta computation of the
same handler is `zoomMoveStep` below; the two-pointer branch is
`twoFingerMove` above.) -/
def onPointerMoveLife (s : HandlerState) (id : ℕ) (x y now : ℚ) : HandlerState :=
  match mapGet s.pointers id with
  | none => s
  | some pointer =>
      let dt := (now - pointer.lastTime) / 1000
      let s1 :=
        if s.pointers.length = 1 ∧ 0 < dt then
          let vx := (x - pointer.lastX) / (dt * 1000)
          let vy := (y - pointer.lastY) / (dt * 1000)
          let samples := s.velocitySamples ++ [⟨vx, vy, now⟩]
          { s with velocitySamples :=
              if maxVelocitySamples < samples.length then samples.tail else samples }
        else s
      { s1 with pointers :=
          mapSet s1.pointers { pointer with lastX := x, lastY := y, lastTime := now } }

/-- `onPointerUp` (lifecycle slice): remove the pointer; leaving
two-finger mode clears centroid tracking; a 2→1 transition recomputes the
anchor under the surviving pointer's last position (when the conversion
resolves); reaching zero pointers clears the anchor; and only a 1→0
transition calls `startInertia`, which clears the sample buffer and
schedules the animation only when `inertiaStarts`. -/
noncomputable def onPointerUpLife (cam : MapCam) (s : HandlerState) (id : ℕ) (now : ℚ) :
    HandlerState :=
  let wasSinglePointer := s.pointers.length = 1
  let wasMultiPointer := 1 < s.pointers.length
  let pointers := mapDelete s.pointers id
  let s1 := { s with pointers := pointers }
  let s2 := if wasMultiPointer ∧ pointers.length < 2 then
      { s1 with lastTwoFingerCentroid := none }
    else s1
  let s3 :=
    if wasMultiPointer ∧ pointers.length = 1 then
      match pointers.head? with
      | some remaining =>
          match getCoordinateAtScreenPoint cam remaining.lastX remaining.lastY with
          | some coord => { s2 with mapAnchorPos := some coord }
          | none => s2
      | none => s2
    else s2
  let s4 := if pointers.length = 0 then { s3 with mapAnchorPos := none } else s3
  if wasSinglePointer ∧ pointers.length = 0 then
    if inertiaStarts s4.velocitySamples now then
      { s4 with velocitySamples := []
                inertiaRunning := true
                inertiaVx := (inertiaVelocity s4.velocitySamples now).1
                inertiaVy := (inertiaVelocity s4.velocitySamples now).2 }
    else { s4 with velocitySamples := [] }
  else s4

/-- One animation frame of the inertia `animate` closure (lifecycle
slice): decay the velocity and stop once the decayed speed is at or below
`minVelocity`. -/
noncomputable def onInertiaFrame (s : HandlerState) : HandlerState :=
  if s.inertiaRunning = false then s
  else
    let vx := friction * s.inertiaVx
    let vy := friction * s.inertiaVy
    if (minVelocity : ℝ) < Real.sqrt ((vx : ℝ) * (vx : ℝ) + (vy : ℝ) * (vy : ℝ)) then
      { s with inertiaVx := vx, inertiaVy := vy }
    else { s with inertiaVx := vx, inertiaVy := vy, inertiaRunning := false }

/-- The events that reach the lifecycle state. -/
inductive HEvent where
  | down (id : ℕ) (x y now : ℚ)
  | move (id : ℕ) (x y now : ℚ)
  | up (id : ℕ) (now : ℚ)
  | frame

/-- One lifecycle transition. -/
noncomputable def handlerStep (cam : MapCam) (s : HandlerState) : HEvent → HandlerState
  | .down id x y now => onPointerDownLife cam s id x y now
  | .move id x y now => onPointerMoveLife s id x y now
  | .up id now => onPointerUpLife cam s id now
  | .frame => onInertiaFrame s

lemma onPointerDownLife_running (cam : MapCam) (s : HandlerState) (id : ℕ) (x y now : ℚ) :
    (onPointerDownLife cam s id x y now).inertiaRunning = false := by
  simp only [onPointerDownLife]
  split_ifs <;> (try split) <;> rfl

lemma onPointerMoveLife_running (s : HandlerState) (id : ℕ) (x y now : ℚ) :
    (onPointerMoveLife s id x y now).inertiaRunning = s.inertiaRunning := by
  simp only [onPointerMoveLife]
  split
  · rfl
  · split_ifs <;> rfl

lemma onPointerMoveLife_of_no_pointers (s : HandlerState) (id : ℕ) (x y now : ℚ)
    (h : s.pointers = []) : onPointerMoveLife s id x y now = s := by
  unfold onPointerMoveLife
  rw [h]
  rfl

lemma onPointerUpLife_pointers (cam : MapCam) (s : HandlerState) (id : ℕ) (now : ℚ) :
    (onPointerUpLife cam s id now).pointers = mapDelete s.pointers id := by
  simp only [onPointerUpLife]
  split_ifs <;> (try split) <;> (try split) <;> rfl

lemma onPointerUpLife_running (cam : MapCam) (s : HandlerState) (id : ℕ) (now : ℚ) :
    (onPointerUpLife cam s id now).inertiaRunning
      = if s.pointers.length = 1 ∧ (mapDelete s.pointers id).length = 0
        then (if inertiaStarts s.velocitySamples now = true then true else s.inertiaRunning)
        else s.inertiaRunning := by
  simp only [onPointerUpLife]
  split_ifs <;> (try split) <;> (try split) <;> simp_all

lemma onInertiaFrame_pointers (s : HandlerState) :
    (onInertiaFrame s).pointers = s.pointers := by
  simp only [onInertiaFrame]
  split_ifs <;> rfl

lemma onInertiaFrame_running (s : HandlerState) :
    (onInertiaFrame s).inertiaRunning = true → s.inertiaRunning = true := by
  unfold onInertiaFrame
  split_ifs <;> simp_all

/-- **C6.** (i) The inertia animation turns on only at a pointer-up that
takes the session from exactly one captured pointer to zero; (ii) every
pointer-down leaves inertia stopped (it is cancelled before any other
processing); (iii) consequently, in every reachable state a running
inertia animation coexists only with an empty pointer set — inertia and
an active drag never drive the camera at the same time. -/
theorem C6_inertia_only_on_last_release (cam : MapCam) :
    (∀ (s : HandlerState) (e : HEvent),
        s.inertiaRunning = false → (handlerStep cam s e).inertiaRunning = true →
        ∃ id now, e = HEvent.up id now ∧ s.pointers.length = 1 ∧
          (handlerStep cam s e).pointers.length = 0) ∧
    (∀ (s : HandlerState) (id : ℕ) (x y now : ℚ),
        (handlerStep cam s (HEvent.down id x y now)).inertiaRunning = false) ∧
    (∀ events : List HEvent,
        (events.foldl (handlerStep cam) initHandler).inertiaRunning = true →
        (events.foldl (handlerStep cam) initHandler).pointers = []) := by
  have hstep : ∀ (s : HandlerState) (e : HEvent),
      (s.inertiaRunning = true → s.pointers = []) →
      ((handlerStep cam s e).inertiaRunning = true → (handlerStep cam s e).pointers = []) := by
    intro s e hinv
    match e with
    | .down id x y now =>
      intro habs
      rw [handlerStep, onPointerDownLife_running] at habs
      exact absurd habs (by simp)
    | .move id x y now =>
      intro hrun
      rw [handlerStep, onPointerMoveLife_running] at hrun
      have hempty := hinv hrun
      rw [handlerStep, onPointerMoveLife_of_no_pointers s id x y now hempty]
      exact hempty
    | .up id now =>
      intro hrun
      rw [handlerStep] at hrun ⊢
      rw [onPointerUpLife_pointers]
      rw [onPointerUpLife_running] at hrun
      by_cases hsrun : s.inertiaRunning = true
      · rw [hinv hsrun]
        rfl
      · split_ifs at hrun with hcond
        · exact List.length_eq_zero.1 hcond.2
        · exact List.length_eq_zero.1 hcond.2
        · exact absurd hrun hsrun
    | .frame =>
      intro hrun
      rw [handlerStep, onInertiaFrame_pointers]
      exact hinv (onInertiaFrame_running s (by rw [handlerStep] at hrun; exact hrun))
  refine ⟨?_, ?_, ?_⟩
  · intro s e hoff hon
    match e with
    | .down id x y now =>
      rw [handlerStep, onPointerDownLife_running] at hon
      exact absurd hon (by simp)
    | .move id x y now =>
      rw [handlerStep, onPointerMoveLife_running] at hon
      exact absurd hon (by simp [hoff])
    | .frame =>
      have hr := onInertiaFrame_running s (by rw [handlerStep] at hon; exact hon)
      exact absurd hr (by simp [hoff])
    | .up id now =>
      refine ⟨id, now, rfl, ?_, ?_⟩
      · rw [handlerStep, onPointerUpLife_running] at hon
        split_ifs at hon with hcond
        · exact hcond.1
        · exact hcond.1
        · exact absurd hon (by simp [hoff])
      · rw [handlerStep, onPointerUpLife_running] at hon
        rw [handlerStep, onPointerUpLife_pointers]
        split_ifs at hon with hcond
        · exact hcond.2
        · exact hcond.2
        · exact absurd hon (by simp [hoff])
  · intro s id x y now
    rw [handlerStep, onPointerDownLife_running]
  · have hfold : ∀ (events : List HEvent) (s : HandlerState),
        (s.inertiaRunning = true → s.pointers = []) →
        ((events.foldl (handlerStep cam) s).inertiaRunning = true →
          (events.foldl (handlerStep cam) s).pointers = []) := by
      intro events
      induction events with
      | nil => intro s h; exact h
      | cons e rest ih =>
        intro s h
        exact ih (handlerStep cam s e) (hstep s e h)
    intro events
    exact hfold events initHandler (by intro h; rfl)

/-- **C6, witness**: with one captured pointer and two recent unit-velocity
samples, releasing it starts inertia from a previously stopped state. -/
theorem C6_inertia_only_on_last_release_witness :
    (handlerStep ⟨true, 0, 0, 2, 2, 1, 0, 100, 100, 0, 0⟩
        ⟨[⟨7, 0, 0, 10, 0, 995⟩], none, none, [⟨1, 0, 985⟩, ⟨1, 0, 995⟩], false, 0, 0⟩
        (HEvent.up 7 1000)).inertiaRunning = true ∧
      (⟨[⟨7, 0, 0, 10, 0, 995⟩], none, none, [⟨1, 0, 985⟩, ⟨1, 0, 995⟩], false, 0, 0⟩
          : HandlerState).inertiaRunning = false ∧
      (⟨[⟨7, 0, 0, 10, 0, 995⟩], none, none, [⟨1, 0, 985⟩, ⟨1, 0, 995⟩], false, 0, 0⟩
          : HandlerState).pointers.length = 1 ∧
      (handlerStep ⟨true, 0, 0, 2, 2, 1, 0, 100, 100, 0, 0⟩
        ⟨[⟨7, 0, 0, 10, 0, 995⟩], none, none, [⟨1, 0, 985⟩, ⟨1, 0, 995⟩], false, 0, 0⟩
        (HEvent.up 7 1000)).pointers.length = 0 := by
  have hC6 := C6_inertia_only_on_last_release ⟨true, 0, 0, 2, 2, 1, 0, 100, 100, 0, 0⟩
  have hrec : recentSamples [⟨1, 0, 985⟩, ⟨1, 0, 995⟩] 1000
      = [⟨1, 0, 985⟩, ⟨1, 0, 995⟩] := by
    norm_num [recentSamples, List.filter_cons, List.filter_nil]
  have hv : inertiaVelocity [⟨1, 0, 985⟩, ⟨1, 0, 995⟩] 1000 = (10, 0) := by
    simp only [inertiaVelocity, hrec, weightedAvgVelocity, timeGapsSum]
    norm_num [show List.range 2 = [0, 1] from rfl,
      show ([(⟨1, 0, 985⟩ : VSample), ⟨1, 0, 995⟩]).enum
        = [(0, ⟨1, 0, 985⟩), (1, ⟨1, 0, 995⟩)] from rfl, Prod.mk.injEq]
  have hstarts : inertiaStarts [⟨1, 0, 985⟩, ⟨1, 0, 995⟩] 1000 = true := by
    rw [inertiaStarts, if_neg (by norm_num), if_neg (by rw [hrec]; norm_num)]
    simp only [hv]
    rw [if_neg (by
      have hs : Real.sqrt (((10 : ℚ) : ℝ) * ((10 : ℚ) : ℝ) + ((0 : ℚ) : ℝ) * ((0 : ℚ) : ℝ))
          = 10 := by
        push_cast
        rw [show (10 : ℝ) * 10 + 0 * 0 = 10 ^ 2 by ring, Real.sqrt_sq (by norm_num)]
      rw [hs]
      norm_num [minVelocity])]
  refine ⟨?_, rfl, rfl, ?_⟩
  · rw [handlerStep, onPointerUpLife_running, if_pos (by decide), if_pos hstarts]
  · rw [handlerStep, onPointerUpLife_pointers]
    decide

/-- **C7.** On a pointer-up, when the map is ready: a transition from two
or more pointers to exactly one recomputes the anchor as the coordinate
currently under the surviving pointer's last position, and a transition
to zero pointers clears the anchor. -/
theorem C7_pointer_up_anchor (cam : MapCam) (hready : cam.ready = true)
    (s : HandlerState) (id : ℕ) (now : ℚ) :
    (2 ≤ s.pointers.length → (onPointerUpLife cam s id now).pointers.length = 1 →
      ∃ p, (onPointerUpLife cam s id now).pointers = [p] ∧
        (onPointerUpLife cam s id now).mapAnchorPos
          = some (pageToCoord cam p.lastX p.lastY)) ∧
    ((onPointerUpLife cam s id now).pointers.length = 0 →
      (onPointerUpLife cam s id now).mapAnchorPos = none) := by
  constructor
  · intro h2 h1
    rw [onPointerUpLife_pointers] at h1
    obtain ⟨p, hp⟩ := List.length_eq_one.1 h1
    refine ⟨p, by rw [onPointerUpLife_pointers, hp], ?_⟩
    have hm : 1 < s.pointers.length := by omega
    have hns : ¬ s.pointers.length = 1 := by omega
    unfold onPointerUpLife
    rw [hp]
    simp only [getCoordinateAtScreenPoint, hready, if_true, List.head?_cons,
      List.length_cons, List.length_nil, List.length_singleton]
    split_ifs <;> simp_all
  · intro h0
    rw [onPointerUpLife_pointers] at h0
    have hdel : mapDelete s.pointers id = [] := List.length_eq_zero.1 h0
    unfold onPointerUpLife
    rw [hdel]
    simp only [List.length_nil, List.head?_nil]
    split_ifs <;> simp_all

/-- **C7, witness**: releasing one of two pointers leaves the survivor and
re-anchors under its last position; releasing the survivor clears the
anchor. -/
theorem C7_pointer_up_anchor_witness :
    (2 ≤ ([⟨1, 0, 0, 30, 40, 50⟩, ⟨2, 5, 5, 70, 20, 60⟩] : List PState).length →
      (onPointerUpLife ⟨true, 0, 0, 2, 2, 1, 0, 100, 100, 0, 0⟩
          ⟨[⟨1, 0, 0, 30, 40, 50⟩, ⟨2, 5, 5, 70, 20, 60⟩], some (1, 1), none, [], false, 0, 0⟩
          1 100).pointers.length = 1 →
      ∃ p, (onPointerUpLife ⟨true, 0, 0, 2, 2, 1, 0, 100, 100, 0, 0⟩
          ⟨[⟨1, 0, 0, 30, 40, 50⟩, ⟨2, 5, 5, 70, 20, 60⟩], some (1, 1), none, [], false, 0, 0⟩
          1 100).pointers = [p] ∧
        (onPointerUpLife ⟨true, 0, 0, 2, 2, 1, 0, 100, 100, 0, 0⟩
          ⟨[⟨1, 0, 0, 30, 40, 50⟩, ⟨2, 5, 5, 70, 20, 60⟩], some (1, 1), none, [], false, 0, 0⟩
          1 100).mapAnchorPos
          = some (pageToCoord ⟨true, 0, 0, 2, 2, 1, 0, 100, 100, 0, 0⟩ p.lastX p.lastY)) ∧
    ((onPointerUpLife ⟨true, 0, 0, 2, 2, 1, 0, 100, 100, 0, 0⟩
          ⟨[⟨1, 0, 0, 30, 40, 50⟩, ⟨2, 5, 5, 70, 20, 60⟩], some (1, 1), none, [], false, 0, 0⟩
          1 100).pointers.length = 0 →
      (onPointerUpLife ⟨true, 0, 0, 2, 2, 1, 0, 100, 100, 0, 0⟩
          ⟨[⟨1, 0, 0, 30, 40, 50⟩, ⟨2, 5, 5, 70, 20, 60⟩], some (1, 1), none, [], false, 0, 0⟩
          1 100).mapAnchorPos = none) :=
  C7_pointer_up_anchor ⟨true, 0, 0, 2, 2, 1, 0, 100, 100, 0, 0⟩ rfl
    ⟨[⟨1, 0, 0, 30, 40, 50⟩, ⟨2, 5, 5, 70, 20, 60⟩], some (1, 1), none, [], false, 0, 0⟩ 1 100

/-! ### Single-pointer zoom hysteresis (`onPointerMove`, lines 380–545)

The chosen metric's value (`getSignedArea()` in normal mode,
`getCompoundZoomValue()` in Alt1 mode — the Geometry Calculator functions
modelled above, evaluated on the visualizer's trail) is an input of each
move event; the step reproduces the handler's per-move control flow:
blocked-state computation, threshold latch, normalised zoom rate
integrated over `dt`, and the gear-zone transitions that reset the latch
and restart the guard timer.  Constants are those of `control.ts`. -/

def ZOOM_AREA_THRESHOLD : ℚ := 1000

def ZOOM_ALT1_THRESHOLD : ℚ := 500

def ZOOM_RATE_COEFF : ℚ := 20

def ZOOM_BLOCK_DURATION_MS : ℚ := 250

/-- JavaScript `Math.sign`. -/
def qsign (q : ℚ) : ℚ := if 0 < q then 1 else if q < 0 then -1 else 0

/-- Session constants: the Alt1 toggle and the viewport rectangle. -/
structure ZoomSession where
  alt1Mode : Bool
  width : ℚ
  height : ℚ

/-- The zoom bookkeeping fields of the handler. -/
structure ZoomState where
  zoomActivated : Bool
  alt1ZoomActivated : Bool
  dragStartTime : ℚ
  isRotating : Bool
  gearRotationActive : Bool
  lastGearRotationY : ℚ
  lastTime : ℚ

/-- `onPointerDown` (zoom slice, lines 336–344): reset both activation
latches and start the guard timer at the event time. -/
def zoomSessionInit (t0 : ℚ) : ZoomState := ⟨false, false, t0, false, false, 0, t0⟩

/-- One single-pointer move event: timestamp, the chosen metric's value,
and the anchor's viewport x when the anchor resolves this frame. -/
structure ZoomMoveEvent where
  now : ℚ
  metric : ℚ
  anchorScreenX : Option ℚ

/-- The zoom delta integrated while the latch is on:
`√|metric| / min(width, height) · sign(metric) · ZOOM_RATE_COEFF · dt`. -/
noncomputable def zoomDeltaValue (sess : ZoomSession) (metric dt : ℚ) : ℝ :=
  Real.sqrt |(metric : ℝ)| / ((min sess.width sess.height : ℚ) : ℝ)
    * ((qsign metric : ℚ) : ℝ) * ((ZOOM_RATE_COEFF : ℚ) : ℝ) * (dt : ℝ)

/-- The threshold/latch/delta stage of the move handler (lines 400–447):
the two latches' new values and the frame's zoom delta. -/
noncomputable def zoomStage1 (sess : ZoomSession) (s : ZoomState) (e : ZoomMoveEvent) :
    Bool × Bool × ℝ :=
  let dt := (e.now - s.lastTime) / 1000
  let isZoomBlocked := s.isRotating = true ∨ e.now - s.dragStartTime < ZOOM_BLOCK_DURATION_MS
  if 0 < dt ∧ ¬ isZoomBlocked then
    if sess.alt1Mode then
      let act := if s.alt1ZoomActivated = false ∧ ZOOM_ALT1_THRESHOLD < |e.metric|
        then true else s.alt1ZoomActivated
      if act = true then (s.zoomActivated, act, zoomDeltaValue sess e.metric dt)
      else (s.zoomActivated, act, 0)
    else
      let act := if s.zoomActivated = false ∧ ZOOM_AREA_THRESHOLD < |e.metric|
        then true else s.zoomActivated
      if act = true then (act, s.alt1ZoomActivated, zoomDeltaValue sess e.metric dt)
      else (act, s.alt1ZoomActivated, 0)
  else (s.zoomActivated, s.alt1ZoomActivated, 0)

/-- The gear-zone transition stage of the move handler (lines 449–516):
entering the zone clears both latches, leaving it restarts the guard
timer, and `isRotating` tracks zone membership. -/
def zoomGear (sess : ZoomSession) (s1 : ZoomState) (e : ZoomMoveEvent) : ZoomState :=
  match e.anchorScreenX with
  | some ax =>
      let wasActive := s1.gearRotationActive
      let active := gearZoneActive ax sess.width
      let sA := { s1 with gearRotationActive := active }
      let sB :=
        if active = true ∧ wasActive = false then
          { sA with zoomActivated := false, alt1ZoomActivated := false,
                    lastGearRotationY := 0 }
        else sA
      let sC :=
        if active = false ∧ wasActive = true then
          { sB with dragStartTime := e.now, lastGearRotationY := 0 }
        else sB
      if active = true then { sC with isRotating := true }
      else { sC with isRotating := false }
  | none => s1

/-- One move event of the single-pointer zoom logic: the new state and
the frame's zoom delta (the handler applies it when `|delta| > 0.0001`). -/
noncomputable def zoomMoveStep (sess : ZoomSession) (s : ZoomState) (e : ZoomMoveEvent) :
    ZoomState × ℝ :=
  let stage1 := zoomStage1 sess s e
  let s1 : ZoomState :=
    { s with zoomActivated := stage1.1, alt1ZoomActivated := stage1.2.1 }
  let s2 := zoomGear sess s1 e
  ({ s2 with lastTime := e.now }, stage1.2.2)

/-- A drag session's run over its move events: each event's post-state
and zoom delta. -/
noncomputable def zoomRun (sess : ZoomSession) : ZoomState → List ZoomMoveEvent →
    List (ZoomState × ℝ)
  | _, [] => []
  | s, e :: rest =>
      let r := zoomMoveStep sess s e
      r :: zoomRun sess r.1 rest

/-- The activation latch belonging to the chosen metric. -/
def chosenFlag (sess : ZoomSession) (s : ZoomState) : Bool :=
  if sess.alt1Mode then s.alt1ZoomActivated else s.zoomActivated

/-- The activation threshold belonging to the chosen metric. -/
def chosenThreshold (sess : ZoomSession) : ℚ :=
  if sess.alt1Mode then ZOOM_ALT1_THRESHOLD else ZOOM_AREA_THRESHOLD

/-- The event makes the handler enter the gear rotation zone (which
resets both activation latches). -/
def entersGearZone (sess : ZoomSession) (s : ZoomState) (e : ZoomMoveEvent) : Prop :=
  ∃ ax, e.anchorScreenX = some ax ∧ gearZoneActive ax sess.width = true ∧
    s.gearRotationActive = false


/-- Writing the two latch results of `zoomStage1` back into the state. -/
def applyLatches (s : ZoomState) (st : Bool × Bool × ℝ) : ZoomState :=
  { s with zoomActivated := st.1, alt1ZoomActivated := st.2.1 }

lemma zoomMoveStep_fst (sess : ZoomSession) (s : ZoomState) (e : ZoomMoveEvent) :
    (zoomMoveStep sess s e).1
      = { zoomGear sess (applyLatches s (zoomStage1 sess s e)) e with lastTime := e.now } := rfl

lemma zoomMoveStep_snd (sess : ZoomSession) (s : ZoomState) (e : ZoomMoveEvent) :
    (zoomMoveStep sess s e).2 = (zoomStage1 sess s e).2.2 := rfl

lemma chosenFlag_lastTime (sess : ZoomSession) (s : ZoomState) (t : ℚ) :
    chosenFlag sess { s with lastTime := t } = chosenFlag sess s := rfl

lemma zoomStage1_inert (sess : ZoomSession) (s : ZoomState) (e : ZoomMoveEvent)
    (hflag : chosenFlag sess s = false) (hm : |e.metric| ≤ chosenThreshold sess) :
    zoomStage1 sess s e = (s.zoomActivated, s.alt1ZoomActivated, 0) := by
  cases halt : sess.alt1Mode <;>
    simp only [chosenFlag, chosenThreshold, halt, Bool.false_eq_true, ite_false,
      ite_true] at hflag hm <;>
    simp only [zoomStage1, halt, Bool.false_eq_true, ite_false, ite_true] <;>
    split_ifs <;> simp_all <;> linarith

lemma zoomStage1_persist (sess : ZoomSession) (s : ZoomState) (e : ZoomMoveEvent)
    (hflag : chosenFlag sess s = true) :
    chosenFlag sess (applyLatches s (zoomStage1 sess s e)) = true := by
  cases halt : sess.alt1Mode <;>
    simp only [chosenFlag, applyLatches, halt, Bool.false_eq_true, ite_false,
      ite_true] at hflag ⊢ <;>
    simp only [zoomStage1, halt, Bool.false_eq_true, ite_false, ite_true] <;>
    split_ifs <;> simp_all

lemma zoomGear_flag_false (sess : ZoomSession) (s1 : ZoomState) (e : ZoomMoveEvent)
    (h : chosenFlag sess s1 = false) : chosenFlag sess (zoomGear sess s1 e) = false := by
  rcases e with ⟨now, metric, ax⟩
  cases ax with
  | none => exact h
  | some a =>
    simp only [zoomGear]
    split_ifs <;> cases halt : sess.alt1Mode <;> simp_all [chosenFlag]

lemma zoomGear_flag_of_not_enter (sess : ZoomSession) (s1 : ZoomState) (e : ZoomMoveEvent)
    (hng : ∀ a, e.anchorScreenX = some a →
      ¬ (gearZoneActive a sess.width = true ∧ s1.gearRotationActive = false)) :
    chosenFlag sess (zoomGear sess s1 e) = chosenFlag sess s1 := by
  rcases e with ⟨now, metric, ax⟩
  cases ax with
  | none => rfl
  | some a =>
    have h := hng a rfl
    simp only [zoomGear]
    split_ifs <;> cases halt : sess.alt1Mode <;> simp_all [chosenFlag]

lemma zoomMoveStep_inert (sess : ZoomSession) (s : ZoomState) (e : ZoomMoveEvent)
    (hflag : chosenFlag sess s = false) (hm : |e.metric| ≤ chosenThreshold sess) :
    chosenFlag sess (zoomMoveStep sess s e).1 = false ∧ (zoomMoveStep sess s e).2 = 0 := by
  have h1 := zoomStage1_inert sess s e hflag hm
  refine ⟨?_, ?_⟩
  · rw [zoomMoveStep_fst, chosenFlag_lastTime]
    apply zoomGear_flag_false
    rw [h1]
    cases halt : sess.alt1Mode <;> simp_all [chosenFlag, applyLatches]
  · rw [zoomMoveStep_snd, h1]

lemma zoomMoveStep_persist (sess : ZoomSession) (s : ZoomState) (e : ZoomMoveEvent)
    (hflag : chosenFlag sess s = true) (hnz : ¬ entersGearZone sess s e) :
    chosenFlag sess (zoomMoveStep sess s e).1 = true := by
  have hgear := zoomGear_flag_of_not_enter sess
    (applyLatches s (zoomStage1 sess s e)) e
    (fun a ha hc => hnz ⟨a, ha, hc.1, hc.2⟩)
  rw [zoomMoveStep_fst, chosenFlag_lastTime, hgear]
  exact zoomStage1_persist sess s e hflag

lemma zoomStage1_activate (sess : ZoomSession) (s : ZoomState) (e : ZoomMoveEvent)
    (hcond : 0 < (e.now - s.lastTime) / 1000 ∧
      ¬ (s.isRotating = true ∨ e.now - s.dragStartTime < ZOOM_BLOCK_DURATION_MS))
    (hm : chosenThreshold sess < |e.metric|) :
    chosenFlag sess (applyLatches s (zoomStage1 sess s e)) = true := by
  cases halt : sess.alt1Mode <;>
    simp only [chosenFlag, chosenThreshold, applyLatches, halt, Bool.false_eq_true,
      ite_false, ite_true] at hm ⊢ <;>
    simp only [zoomStage1, halt, Bool.false_eq_true, ite_false, ite_true] <;>
    rw [if_pos hcond] <;>
    split_ifs <;> simp_all

lemma zoomStage1_delta (sess : ZoomSession) (s : ZoomState) (e : ZoomMoveEvent)
    (hflag : chosenFlag sess s = true)
    (hcond : 0 < (e.now - s.lastTime) / 1000 ∧
      ¬ (s.isRotating = true ∨ e.now - s.dragStartTime < ZOOM_BLOCK_DURATION_MS)) :
    (zoomStage1 sess s e).2.2
      = zoomDeltaValue sess e.metric ((e.now - s.lastTime) / 1000) := by
  cases halt : sess.alt1Mode <;>
    simp only [chosenFlag, halt, Bool.false_eq_true, ite_false, ite_true] at hflag <;>
    simp only [zoomStage1, halt, Bool.false_eq_true, ite_false, ite_true] <;>
    rw [if_pos hcond] <;>
    split_ifs <;> simp_all

lemma zoomMoveStep_delta (sess : ZoomSession) (s : ZoomState) (e : ZoomMoveEvent)
    (hflag : chosenFlag sess s = true)
    (hrot : s.isRotating = false)
    (hguard : ZOOM_BLOCK_DURATION_MS ≤ e.now - s.dragStartTime)
    (hdt : s.lastTime < e.now) :
    (zoomMoveStep sess s e).2 = zoomDeltaValue sess e.metric ((e.now - s.lastTime) / 1000) := by
  have hnb : ¬ (s.isRotating = true ∨ e.now - s.dragStartTime < ZOOM_BLOCK_DURATION_MS) := by
    push_neg
    exact ⟨by simp [hrot], by linarith⟩
  have hdtpos : 0 < (e.now - s.lastTime) / 1000 := div_pos (by linarith) (by norm_num)
  rw [zoomMoveStep_snd]
  exact zoomStage1_delta sess s e hflag ⟨hdtpos, hnb⟩

lemma zoomDeltaValue_ne_zero (sess : ZoomSession) (metric dt : ℚ)
    (hm : metric ≠ 0) (hw : 0 < sess.width) (hh : 0 < sess.height) (hdt : 0 < dt) :
    zoomDeltaValue sess metric dt ≠ 0 := by
  unfold zoomDeltaValue
  have hmr : ((metric : ℚ) : ℝ) ≠ 0 := by exact_mod_cast hm
  have h1 : Real.sqrt |(metric : ℝ)| ≠ 0 := by
    apply ne_of_gt
    apply Real.sqrt_pos.2
    exact abs_pos.2 hmr
  have h2 : ((min sess.width sess.height : ℚ) : ℝ) ≠ 0 := by
    have : (0 : ℚ) < min sess.width sess.height := lt_min hw hh
    exact_mod_cast ne_of_gt this
  have h3 : ((qsign metric : ℚ) : ℝ) ≠ 0 := by
    have : qsign metric ≠ 0 := by
      unfold qsign
      rcases lt_trichotomy 0 metric with h | h | h
      · rw [if_pos h]; norm_num
      · exact absurd h.symm hm
      · rw [if_neg (by linarith), if_pos h]; norm_num
    exact_mod_cast this
  have h4 : ((ZOOM_RATE_COEFF : ℚ) : ℝ) ≠ 0 := by norm_num [ZOOM_RATE_COEFF]
  have h5 : ((dt : ℚ) : ℝ) ≠ 0 := by exact_mod_cast ne_of_gt hdt
  exact mul_ne_zero (mul_ne_zero (mul_ne_zero (div_ne_zero h1 h2) h3) h4) h5

lemma zoomRun_inert (sess : ZoomSession) (events : List ZoomMoveEvent) :
    ∀ s : ZoomState, chosenFlag sess s = false →
    (∀ e ∈ events, |e.metric| ≤ chosenThreshold sess) →
    ∀ r ∈ zoomRun sess s events, r.2 = 0 := by
  induction events with
  | nil => intro s _ _ r hr; simp [zoomRun] at hr
  | cons e rest ih =>
    intro s hflag hall r hr
    simp only [zoomRun, List.mem_cons] at hr
    have hstep := zoomMoveStep_inert sess s e hflag (hall e (by simp))
    rcases hr with hr | hr
    · rw [hr]; exact hstep.2
    · exact ih (zoomMoveStep sess s e).1 hstep.1
        (fun e2 he2 => hall e2 (by simp [he2])) r hr


/-- **C2, amended.** (a) In a session whose chosen metric never exceeds
the activation threshold, every move event's zoom delta is exactly `0`.
(b) An unblocked move (`isRotating` off, guard timer elapsed) with
positive `dt` whose metric magnitude exceeds the threshold turns the
activation latch on, unless that move itself enters the gear rotation
zone.  (c) Once the latch is on it stays on across any move that does
not enter the gear rotation zone (entering resets it).  (d) While the
latch is on, an unblocked move with positive `dt` and non-zero metric
produces a non-zero zoom delta on a viewport of positive width and
height. -/
theorem C2_zoom_hysteresis (sess : ZoomSession) :
    (∀ (t0 : ℚ) (events : List ZoomMoveEvent),
      (∀ e ∈ events, |e.metric| ≤ chosenThreshold sess) →
      ∀ r ∈ zoomRun sess (zoomSessionInit t0) events, r.2 = 0) ∧
    (∀ (s : ZoomState) (e : ZoomMoveEvent),
      s.isRotating = false →
      ZOOM_BLOCK_DURATION_MS ≤ e.now - s.dragStartTime → s.lastTime < e.now →
      chosenThreshold sess < |e.metric| → ¬ entersGearZone sess s e →
      chosenFlag sess (zoomMoveStep sess s e).1 = true) ∧
    (∀ (s : ZoomState) (e : ZoomMoveEvent),
      chosenFlag sess s = true → ¬ entersGearZone sess s e →
      chosenFlag sess (zoomMoveStep sess s e).1 = true) ∧
    (∀ (s : ZoomState) (e : ZoomMoveEvent),
      chosenFlag sess s = true → s.isRotating = false →
      ZOOM_BLOCK_DURATION_MS ≤ e.now - s.dragStartTime → s.lastTime < e.now →
      e.metric ≠ 0 → 0 < sess.width → 0 < sess.height →
      (zoomMoveStep sess s e).2 ≠ 0) := by
  refine ⟨?_, ?_, ?_, ?_⟩
  · intro t0 events hall r hr
    refine zoomRun_inert sess events (zoomSessionInit t0) ?_ hall r hr
    cases sess.alt1Mode <;> simp [chosenFlag, zoomSessionInit]
  · intro s e hrot hguard hdt hm hnz
    have hnb : ¬ (s.isRotating = true ∨
        e.now - s.dragStartTime < ZOOM_BLOCK_DURATION_MS) := by
      push_neg
      exact ⟨by simp [hrot], by linarith⟩
    have hdtpos : 0 < (e.now - s.lastTime) / 1000 := div_pos (by linarith) (by norm_num)
    have hgear := zoomGear_flag_of_not_enter sess
      (applyLatches s (zoomStage1 sess s e)) e
      (fun a ha hc => hnz ⟨a, ha, hc.1, hc.2⟩)
    rw [zoomMoveStep_fst, chosenFlag_lastTime, hgear]
    exact zoomStage1_activate sess s e ⟨hdtpos, hnb⟩ hm
  · exact fun s e hflag hnz => zoomMoveStep_persist sess s e hflag hnz
  · intro s e hflag hrot hguard hdt hm hw hh
    rw [zoomMoveStep_delta sess s e hflag hrot hguard hdt]
    exact zoomDeltaValue_ne_zero sess e.metric _ hm hw hh
      (div_pos (by linarith) (by norm_num))

lemma sqrt_abs_1024 : Real.sqrt |(1024 : ℝ)| = 32 := by
  rw [show |(1024 : ℝ)| = (32 : ℝ) ^ 2 by norm_num, Real.sqrt_sq (by norm_num)]

lemma zoomDeltaValue_1024 (dt : ℚ) :
    zoomDeltaValue ⟨false, 800, 600⟩ 1024 dt = 32 / 600 * 20 * (dt : ℝ) := by
  unfold zoomDeltaValue
  rw [show ((1024 : ℚ) : ℝ) = (1024 : ℝ) by norm_num, sqrt_abs_1024]
  norm_num [qsign, ZOOM_RATE_COEFF, min_def]

lemma zoomDeltaValue_zero_metric (dt : ℚ) :
    zoomDeltaValue ⟨false, 800, 600⟩ 0 dt = 0 := by
  unfold zoomDeltaValue
  norm_num [qsign]

/-- **C2, counterexample.** In the session below the metric crosses the
threshold at the first (unblocked) move and zoom activates with delta
`8/25`; the second move enters the gear rotation zone (anchor at viewport
x `10`, within `800/16` of the left edge), which clears the latch; after
leaving the zone and outliving the restarted guard timer, the fourth move
is unblocked with the non-zero metric `500` yet produces zoom delta `0` —
contradicting "every subsequent unblocked move event produces a zoom
delta … non-zero whenever the metric is non-zero". -/
theorem C2_cex_gear_zone_resets_activation :
    zoomRun ⟨false, 800, 600⟩ (zoomSessionInit 0)
        [⟨300, 1024, none⟩, ⟨320, 0, some 10⟩, ⟨340, 600, some 400⟩, ⟨600, 500, none⟩]
      = [(⟨true, false, 0, false, false, 0, 300⟩, 8 / 25),
         (⟨false, false, 0, true, true, 0, 320⟩, 0),
         (⟨false, false, 340, false, false, 0, 340⟩, 0),
         (⟨false, false, 340, false, false, 0, 600⟩, 0)] ∧
      chosenThreshold ⟨false, 800, 600⟩ < |(1024 : ℚ)| ∧
      (⟨false, false, 340, false, false, 0, 340⟩ : ZoomState).isRotating = false ∧
      ZOOM_BLOCK_DURATION_MS ≤ (600 : ℚ) - (⟨false, false, 340, false, false, 0, 340⟩
        : ZoomState).dragStartTime ∧
      (500 : ℚ) ≠ 0 := by
  have hz10 : gearZoneActive 10 800 = true := by
    simp only [gearZoneActive, decide_eq_true_eq]
    norm_num [min_def]
  have hz400 : gearZoneActive 400 800 = false := by
    simp only [gearZoneActive, decide_eq_false_iff_not]
    norm_num [min_def]
  have hs1 : zoomStage1 ⟨false, 800, 600⟩ ⟨false, false, 0, false, false, 0, 0⟩
      ⟨300, 1024, none⟩ = (true, false, (8 : ℝ) / 25) := by
    simp only [zoomStage1, Bool.false_eq_true, ite_false, ite_true]
    norm_num [ZOOM_BLOCK_DURATION_MS, ZOOM_AREA_THRESHOLD, zoomDeltaValue_1024,
      Prod.mk.injEq]
  have hs2 : zoomStage1 ⟨false, 800, 600⟩ ⟨true, false, 0, false, false, 0, 300⟩
      ⟨320, 0, some 10⟩ = (true, false, 0) := by
    simp only [zoomStage1, Bool.false_eq_true, ite_false, ite_true]
    norm_num [ZOOM_BLOCK_DURATION_MS, ZOOM_AREA_THRESHOLD, zoomDeltaValue_zero_metric,
      Prod.mk.injEq]
  have hs3 : zoomStage1 ⟨false, 800, 600⟩ ⟨false, false, 0, true, true, 0, 320⟩
      ⟨340, 600, some 400⟩ = (false, false, 0) := by
    simp only [zoomStage1, Bool.false_eq_true, ite_false, ite_true]
    norm_num [ZOOM_BLOCK_DURATION_MS]
  have hs4 : zoomStage1 ⟨false, 800, 600⟩ ⟨false, false, 340, false, false, 0, 340⟩
      ⟨600, 500, none⟩ = (false, false, 0) := by
    simp only [zoomStage1, Bool.false_eq_true, ite_false, ite_true]
    norm_num [ZOOM_BLOCK_DURATION_MS, ZOOM_AREA_THRESHOLD, Prod.mk.injEq]
  have h1 : zoomMoveStep ⟨false, 800, 600⟩ ⟨false, false, 0, false, false, 0, 0⟩
      ⟨300, 1024, none⟩ = (⟨true, false, 0, false, false, 0, 300⟩, 8 / 25) := by
    refine Prod.ext ?_ ?_
    · rw [zoomMoveStep_fst, hs1]; rfl
    · rw [zoomMoveStep_snd, hs1]
  have h2 : zoomMoveStep ⟨false, 800, 600⟩ ⟨true, false, 0, false, false, 0, 300⟩
      ⟨320, 0, some 10⟩ = (⟨false, false, 0, true, true, 0, 320⟩, 0) := by
    refine Prod.ext ?_ ?_
    · rw [zoomMoveStep_fst, hs2]
      show ({ zoomGear ⟨false, 800, 600⟩ ⟨true, false, 0, false, false, 0, 300⟩
          ⟨320, 0, some 10⟩ with lastTime := 320 } : ZoomState) = _
      simp only [zoomGear, hz10, Bool.true_eq_false, Bool.false_eq_true, and_true,
        and_false, ite_true, ite_false, and_self]
    · rw [zoomMoveStep_snd, hs2]
  have h3 : zoomMoveStep ⟨false, 800, 600⟩ ⟨false, false, 0, true, true, 0, 320⟩
      ⟨340, 600, some 400⟩ = (⟨false, false, 340, false, false, 0, 340⟩, 0) := by
    refine Prod.ext ?_ ?_
    · rw [zoomMoveStep_fst, hs3]
      show ({ zoomGear ⟨false, 800, 600⟩ ⟨false, false, 0, true, true, 0, 320⟩
          ⟨340, 600, some 400⟩ with lastTime := 340 } : ZoomState) = _
      simp only [zoomGear, hz400, Bool.true_eq_false, Bool.false_eq_true, and_true,
        and_false, ite_true, ite_false, and_self]
    · rw [zoomMoveStep_snd, hs3]
  have h4 : zoomMoveStep ⟨false, 800, 600⟩ ⟨false, false, 340, false, false, 0, 340⟩
      ⟨600, 500, none⟩ = (⟨false, false, 340, false, false, 0, 600⟩, 0) := by
    refine Prod.ext ?_ ?_
    · rw [zoomMoveStep_fst, hs4]; rfl
    · rw [zoomMoveStep_snd, hs4]
  refine ⟨?_, by norm_num [chosenThreshold, ZOOM_AREA_THRESHOLD], rfl,
    by norm_num [ZOOM_BLOCK_DURATION_MS], by norm_num⟩
  show zoomRun ⟨false, 800, 600⟩ ⟨false, false, 0, false, false, 0, 0⟩ _ = _
  simp only [zoomRun, h1, h2, h3, h4]

/-- **C2, witness** for parts (b) and (d): an unblocked move of metric
`1024` after `300` ms turns the latch on from the initial state, and with
the latch already on such a move produces a non-zero zoom delta. -/
theorem C2_zoom_hysteresis_witness :
    chosenFlag ⟨false, 800, 600⟩ ⟨true, false, 0, false, false, 0, 0⟩ = true ∧
      (zoomMoveStep ⟨false, 800, 600⟩ ⟨true, false, 0, false, false, 0, 0⟩
        ⟨300, 1024, none⟩).2 ≠ 0 ∧
      chosenFlag ⟨false, 800, 600⟩
        (zoomMoveStep ⟨false, 800, 600⟩ ⟨false, false, 0, false, false, 0, 0⟩
          ⟨300, 1024, none⟩).1 = true :=
  ⟨rfl,
    (C2_zoom_hysteresis ⟨false, 800, 600⟩).2.2.2
      ⟨true, false, 0, false, false, 0, 0⟩ ⟨300, 1024, none⟩ rfl rfl
      (by norm_num [ZOOM_BLOCK_DURATION_MS]) (by norm_num) (by norm_num)
      (by norm_num) (by norm_num),
    (C2_zoom_hysteresis ⟨false, 800, 600⟩).2.1
      ⟨false, false, 0, false, false, 0, 0⟩ ⟨300, 1024, none⟩ rfl
      (by norm_num [ZOOM_BLOCK_DURATION_MS]) (by norm_num)
      (by norm_num [chosenThreshold, ZOOM_AREA_THRESHOLD])
      (by rintro ⟨a, ha, -, -⟩; simp at ha)⟩

end WhirlZoom
